import Mathlib

/-!
Verification of the balloons policy CPU tree allocator
(pkg/cri/resource-manager/policy/builtin/balloons/cputree.go).

Modelling conventions:
- A k8s cpuset.CPUSet is a Finset ℕ (an unordered set of CPU ids with
  decidable membership and set algebra).
- Go int is ℤ where values can be negative (delta, topology levels) and
  ℕ where the source only ever stores a cardinality or a depth.
- The parent pointer of cpuTreeNode is not modelled: the source reads it
  only inside AddCpus during tree construction, which none of the
  verified operations call.
- Fallible Go functions returning (..., error) become Except String.
  On error the source also returns its in-progress sets alongside err;
  callers of the source only use them when err is nil, so Except keeps
  the error message alone.
- The source sorts its descriptor slice with sort.Slice, whose
  comparator closure reads the slice being permuted and, on fully tied
  value keys, compares the two probed positions. Which fully tied
  descriptor ends up at position 0 therefore depends on the runtime's
  unstable sort, not on this repository's code alone. Two embeddings
  are used side by side: selectFirst resolves the position tie-break
  over fixed emission indices (a stable reading, used for properties
  that hold under every tie resolution), and goSortSlice is an exact
  port of the Go 1.19+ runtime sort (the pattern-defeating quicksort of
  sort.Slice), used to settle which descriptor the runtime actually
  delivers on concrete inputs.
-/

/-- CPUTopologyLevel is a Go int; the seven defined constants are the
iota values 0..6. -/
abbrev CPUTopologyLevel := ℤ

def CPUTopologyLevelUndefined : CPUTopologyLevel := 0

def CPUTopologyLevelSystem : CPUTopologyLevel := 1

def CPUTopologyLevelPackage : CPUTopologyLevel := 2

def CPUTopologyLevelDie : CPUTopologyLevel := 3

def CPUTopologyLevelNuma : CPUTopologyLevel := 4

def CPUTopologyLevelCore : CPUTopologyLevel := 5

def CPUTopologyLevelThread : CPUTopologyLevel := 6

/-- cpuTreeNode from the source: a name, a topology level tag, the
ordered children and the CPU set covered by the subtree. The children
slice `[]*cpuTreeNode` is a List of subtrees. -/
inductive cpuTreeNode : Type where
  | mk (name : String) (level : CPUTopologyLevel) (children : List cpuTreeNode)
      (cpus : Finset ℕ)

instance : Inhabited cpuTreeNode := ⟨.mk "" 0 [] ∅⟩

def cpuTreeNode.name : cpuTreeNode → String
  | .mk nm _ _ _ => nm

def cpuTreeNode.level : cpuTreeNode → CPUTopologyLevel
  | .mk _ lv _ _ => lv

def cpuTreeNode.children : cpuTreeNode → List cpuTreeNode
  | .mk _ _ cs _ => cs

def cpuTreeNode.cpus : cpuTreeNode → Finset ℕ
  | .mk _ _ _ c => c

mutual
/-- All nodes of the tree in depth-first pre-order: the node itself
followed by the nodes of each child subtree in order. This is the visit
order of DepthFirstWalk and of toAttributedSlice in the source. -/
def descendants : cpuTreeNode → List cpuTreeNode
  | .mk nm lv cs cpus => .mk nm lv cs cpus :: descendantsList cs
def descendantsList : List cpuTreeNode → List cpuTreeNode
  | [] => []
  | c :: cs => descendants c ++ descendantsList cs
end

/-- cpuTreeNodeAttributes from the source: the attribution descriptor
emitted for one tree node. -/
structure cpuTreeNodeAttributes where
  t : cpuTreeNode
  depth : ℕ
  currentCpus : Finset ℕ
  freeCpus : Finset ℕ
  currentCpuCount : ℕ
  currentCpuCounts : List ℕ
  freeCpuCount : ℕ
  freeCpuCounts : List ℕ

instance : Inhabited cpuTreeNodeAttributes :=
  ⟨{ t := default, depth := 0, currentCpus := ∅, freeCpus := ∅,
     currentCpuCount := 0, currentCpuCounts := [], freeCpuCount := 0,
     freeCpuCounts := [] }⟩

/-- The descriptor toAttributedSlice builds for one node. The source
allocates count vectors one entry longer than the incoming ones, copies
the incoming vectors and writes the count of this node at index depth;
depth always equals the incoming length (0 at the root, parent length
plus one below), so the new vectors are the incoming vectors with the
new count appended. -/
def nodeAttributes (t : cpuTreeNode) (currentCpus freeCpus : Finset ℕ) (depth : ℕ)
    (currentCpuCounts freeCpuCounts : List ℕ) : cpuTreeNodeAttributes :=
  let currentCpusHere := t.cpus ∩ currentCpus
  let freeCpusHere := t.cpus ∩ freeCpus
  { t := t
    depth := depth
    currentCpus := currentCpusHere
    freeCpus := freeCpusHere
    currentCpuCount := currentCpusHere.card
    currentCpuCounts := currentCpuCounts ++ [currentCpusHere.card]
    freeCpuCount := freeCpusHere.card
    freeCpuCounts := freeCpuCounts ++ [freeCpusHere.card] }

mutual
/-- toAttributedSlice from the source. The descriptor of a node is
appended before recursing into the children; if the filter rejects the
descriptor nothing is emitted for the node and the children are not
visited. -/
def toAttributedSlice (currentCpus freeCpus : Finset ℕ)
    (filter : cpuTreeNodeAttributes → Bool) :
    cpuTreeNode → ℕ → List ℕ → List ℕ → List cpuTreeNodeAttributes
  | .mk nm lv cs cpus, depth, currentCpuCounts, freeCpuCounts =>
    let tna := nodeAttributes (.mk nm lv cs cpus) currentCpus freeCpus depth
      currentCpuCounts freeCpuCounts
    if filter tna then
      tna :: toAttributedSliceList currentCpus freeCpus filter cs (depth + 1)
        tna.currentCpuCounts tna.freeCpuCounts
    else []
def toAttributedSliceList (currentCpus freeCpus : Finset ℕ)
    (filter : cpuTreeNodeAttributes → Bool) :
    List cpuTreeNode → ℕ → List ℕ → List ℕ → List cpuTreeNodeAttributes
  | [], _, _, _ => []
  | c :: cs, depth, currentCpuCounts, freeCpuCounts =>
    toAttributedSlice currentCpus freeCpus filter c depth currentCpuCounts
      freeCpuCounts ++
    toAttributedSliceList currentCpus freeCpus filter cs depth currentCpuCounts
      freeCpuCounts
end

/-- ToAttributedSlice from the source: the attribution pass started at
the root with depth 0 and empty count vectors. -/
def cpuTreeNode.ToAttributedSlice (t : cpuTreeNode) (currentCpus freeCpus : Finset ℕ)
    (filter : cpuTreeNodeAttributes → Bool) : List cpuTreeNodeAttributes :=
  toAttributedSlice currentCpus freeCpus filter t 0 [] []

/-- First position at which two count vectors differ, scanning in step
as the source loops `for tdepth := 0; tdepth < len(tnas[i].counts)`.
Returns the two differing entries, or none when the scan runs off the
end of either vector without finding a difference (in the source both
vectors always have length depth+1, and the loops only run with equal
depths, so the vectors scanned together always have equal length). -/
def lexDiff : List ℕ → List ℕ → Option (ℕ × ℕ)
  | [], _ => none
  | _ :: _, [] => none
  | x :: xs, y :: ys => if x = y then lexDiff xs ys else some (x, y)

/-- sorterAllocate from the source, as an is-less-than test on pairs of
an index and a descriptor. The source closure receives two indices into
the tnas slice and reads the descriptors currently there; the final
`return i > j` compares the indices themselves. Read over fixed
emission indices (as selectFirst below does) the comparator is a strict
total order on (index, descriptor) pairs; inside sort.Slice the indices
are in-flight positions of the unstable sort, so on fully tied value
keys the closure does not define a fixed order on descriptors (see
goSortSlice below for the runtime's behaviour). -/
def sorterAllocate (topologyBalancing : Bool)
    (p q : ℕ × cpuTreeNodeAttributes) : Bool :=
  if p.2.depth ≠ q.2.depth then decide (p.2.depth > q.2.depth)
  else
    match lexDiff p.2.currentCpuCounts q.2.currentCpuCounts with
    | some (x, y) => decide (x > y)
    | none =>
      match lexDiff p.2.freeCpuCounts q.2.freeCpuCounts with
      | some (x, y) =>
        if topologyBalancing then decide (x > y) else decide (x < y)
      | none => decide (p.1 > q.1)

/-- sorterRelease from the source, in the same style as sorterAllocate.
Both branches of the topologyBalancing switch in the source evaluate to
the same less-than expression and are kept here as written. -/
def sorterRelease (topologyBalancing : Bool)
    (p q : ℕ × cpuTreeNodeAttributes) : Bool :=
  if p.2.depth ≠ q.2.depth then decide (p.2.depth > q.2.depth)
  else
    match lexDiff p.2.currentCpuCounts q.2.currentCpuCounts with
    | some (x, y) => decide (x < y)
    | none =>
      match lexDiff p.2.freeCpuCounts q.2.freeCpuCounts with
      | some (x, y) =>
        if topologyBalancing then decide (x < y) else decide (x < y)
      | none => decide (p.1 < q.1)

/-- Pairs each list element with its emission index, starting at i. -/
def withIdx {α : Type} : ℕ → List α → List (ℕ × α)
  | _, [] => []
  | i, a :: as => (i, a) :: withIdx (i + 1) as

/-- The least element of the list under the given is-less-than test, or
none when the list is empty (the source checks len(tnas) == 0 after
sorting). This models taking element 0 after sort.Slice with the
comparator's position tie-break read over fixed emission indices - a
stable resolution of the value-key ties. The runtime instead resolves
those ties through the in-flight positions of its unstable sort
(modelled exactly by goSortSlice below): the two agree whenever the
value keys admit a unique minimal descriptor and may pick different
fully tied descriptors otherwise, so theorems stated through selectFirst
either hold under every tie resolution or say so explicitly. -/
def selectFirst {α : Type} (less : α → α → Bool) : List α → Option α
  | [] => none
  | x :: xs => some (xs.foldl (fun acc y => if less y acc then y else acc) x)

/-- The feasibility filter closure of resizeCpus in the source. -/
def resizeFilter (delta : ℤ) (tna : cpuTreeNodeAttributes) : Bool :=
  if delta > 0 ∧ (tna.freeCpuCount : ℤ) - delta < 0 then false
  else if delta < 0 ∧ (tna.currentCpuCount : ℤ) + delta < 0 then false
  else true

/-- resizeCpus from the source (lower-case single-shot resize): run the
attribution pass with the feasibility filter, sort the survivors with
the direction-specific comparator and return the (freeCpus,
currentCpus) of the descriptor at position 0; with no survivor fail
with the single error message used for both directions. The sort's
value-key ties are resolved here over fixed emission indices;
resizeCpusGo below is the same function with the tie resolution of the
Go 1.19+ runtime sort. -/
def resizeCpus (topologyBalancing : Bool) (root : cpuTreeNode)
    (currentCpus freeCpus : Finset ℕ) (delta : ℤ) :
    Except String (Finset ℕ × Finset ℕ) :=
  match
    if delta > 0 then
      selectFirst (sorterAllocate topologyBalancing)
        (withIdx 0 (root.ToAttributedSlice currentCpus freeCpus (resizeFilter delta)))
    else
      selectFirst (sorterRelease topologyBalancing)
        (withIdx 0 (root.ToAttributedSlice currentCpus freeCpus (resizeFilter delta)))
  with
  | none => Except.error "not enough free CPUs"
  | some p => Except.ok (p.2.freeCpus, p.2.currentCpus)

section GoRuntimeSort

/-! The sort.Slice implementation of the Go runtime (Go 1.19 and later,
sort/zsortfunc.go), ported function by function. The slice being sorted
is the state (a List), a comparator receives the live state and two
positions exactly as the source's closure reads `tnas[i]`, `tnas[j]`
and the indices i, j, and every Go loop becomes fuel recursion whose
fuel is an upper bound on its iteration count, so the fuel-exhausted
branches are unreachable. The hint values of choosePivot are encoded as
0 increasing, 1 decreasing, 2 unknown. -/

variable {α : Type} [Inhabited α]

/-- One data.Swap(i, j) on the slice state. -/
def goSwap (l : List α) (i j : ℕ) : List α :=
  (l.set i (l.getD j default)).set j (l.getD i default)

/-- bits.Len by fuel recursion over halving (the library function is not
kernel-reducible). -/
def bitsLenAux : ℕ → ℕ → ℕ
  | 0, _ => 0
  | f + 1, n => if n = 0 then 0 else bitsLenAux f (n / 2) + 1

def goBitsLen (n : ℕ) : ℕ := bitsLenAux (n + 1) n

/-- Truncation to uint64. -/
def u64 (n : ℕ) : ℕ := n % 2 ^ 64

/-- Bitwise xor on naturals by fuel recursion over the binary digits
(the library bitwise functions are not kernel-reducible). -/
def natXorAux : ℕ → ℕ → ℕ → ℕ
  | 0, _, _ => 0
  | f + 1, n, m =>
    if n = 0 then m
    else if m = 0 then n
    else natXorAux f (n / 2) (m / 2) * 2 + (n + m) % 2

def natXor (n m : ℕ) : ℕ := natXorAux 70 n m

/-- The xorshift step of breakPatterns' pseudo-random stream:
r ^= r<<13; r ^= r>>7; r ^= r<<17 on uint64 (shifts become
multiplication and division by powers of two with truncation). -/
def xorshiftNext (r : ℕ) : ℕ :=
  let r1 := u64 (natXor r (u64 (r * 2 ^ 13)))
  let r2 := u64 (natXor r1 (r1 / 2 ^ 7))
  u64 (natXor r2 (u64 (r2 * 2 ^ 17)))

/-- insertionSort_func inner loop:
for j := i; j > a && data.Less(j, j-1); j-- { data.Swap(j, j-1) }. -/
def insSortInner (less : List α → ℕ → ℕ → Bool) (a : ℕ) :
    ℕ → List α → ℕ → List α
  | 0, st, _ => st
  | f + 1, st, j =>
    if a < j ∧ less st j (j - 1) then
      insSortInner less a f (goSwap st j (j - 1)) (j - 1)
    else st

/-- insertionSort_func outer loop: for i := a+1; i < b; i++. -/
def insSortOuter (less : List α → ℕ → ℕ → Bool) (a b : ℕ) :
    ℕ → List α → ℕ → List α
  | 0, st, _ => st
  | f + 1, st, i =>
    if i < b then insSortOuter less a b f (insSortInner less a i st i) (i + 1)
    else st

/-- insertionSort_func from the Go runtime sort. -/
def insertionSortGo (less : List α → ℕ → ℕ → Bool) (a b : ℕ) (st : List α) :
    List α :=
  insSortOuter less a b b st (a + 1)

/-- siftDown_func from the Go runtime sort. -/
def siftDownGo (less : List α → ℕ → ℕ → Bool) (hi first : ℕ) :
    ℕ → List α → ℕ → List α
  | 0, st, _ => st
  | f + 1, st, root =>
    let child0 := 2 * root + 1
    if hi ≤ child0 then st
    else
      let child :=
        if child0 + 1 < hi ∧ less st (first + child0) (first + child0 + 1) then
          child0 + 1
        else child0
      if ¬ less st (first + root) (first + child) then st
      else siftDownGo less hi first f (goSwap st (first + root) (first + child)) child

/-- heapSort_func build phase: for i := (hi-1)/2; i >= 0; i--, running
siftDown(data, i, hi, first); the counter argument is i+1. -/
def heapBuildGo (less : List α → ℕ → ℕ → Bool) (hi first : ℕ) :
    ℕ → List α → List α
  | 0, st => st
  | k + 1, st => heapBuildGo less hi first k (siftDownGo less hi first hi st k)

/-- heapSort_func extract phase: for i := hi-1; i >= 0; i--, running
data.Swap(first, first+i) then siftDown(data, 0, i, first). -/
def heapExtractGo (less : List α → ℕ → ℕ → Bool) (first : ℕ) :
    ℕ → List α → List α
  | 0, st => st
  | k + 1, st =>
    heapExtractGo less first k
      (siftDownGo less k first (k + 1) (goSwap st first (first + k)) 0)

/-- heapSort_func from the Go runtime sort. -/
def heapSortGo (less : List α → ℕ → ℕ → Bool) (a b : ℕ) (st : List α) :
    List α :=
  heapExtractGo less a (b - a) (heapBuildGo less (b - a) a ((b - a - 1) / 2 + 1) st)

/-- reverseRange_func from the Go runtime sort. -/
def reverseRangeGo : ℕ → List α → ℕ → ℕ → List α
  | 0, st, _, _ => st
  | f + 1, st, i, j =>
    if i < j then reverseRangeGo f (goSwap st i j) (i + 1) (j - 1) else st

/-- other := int(uint(random.Next()) & (modulus-1)); if other >= length,
other -= length. The mask is % modulus, modulus being a power of two. -/
def breakOther (r length modulus : ℕ) : ℕ :=
  let other := r % modulus
  if length ≤ other then other - length else other

/-- breakPatterns_func: with length >= 8, three pseudo-random swaps at
idx-1, idx, idx+1 (idx = a + length/4*2 - 1), driven by the xorshift
stream seeded with the length. -/
def breakPatternsGo (st : List α) (a b : ℕ) : List α :=
  let length := b - a
  if 8 ≤ length then
    let modulus := 2 ^ goBitsLen length
    let idx := a + length / 4 * 2 - 1
    let r1 := xorshiftNext length
    let st1 := goSwap st (idx - 1) (a + breakOther r1 length modulus)
    let r2 := xorshiftNext r1
    let st2 := goSwap st1 idx (a + breakOther r2 length modulus)
    let r3 := xorshiftNext r2
    goSwap st2 (idx + 1) (a + breakOther r3 length modulus)
  else st

/-- order2_func: orders two positions by Less, counting comparator
inversions in the last component. -/
def order2Go (less : List α → ℕ → ℕ → Bool) (st : List α) (a b swaps : ℕ) :
    ℕ × ℕ × ℕ :=
  if less st b a then (b, a, swaps + 1) else (a, b, swaps)

/-- median_func: a, b = order2(a, b); b, c = order2(b, c);
a, b = order2(a, b); return b (with the running swap count). -/
def medianGo (less : List α → ℕ → ℕ → Bool) (st : List α) (a b c swaps : ℕ) :
    ℕ × ℕ :=
  match order2Go less st a b swaps with
  | (a1, b1, s1) =>
    match order2Go less st b1 c s1 with
    | (b2, _, s2) =>
      match order2Go less st a1 b2 s2 with
      | (_, b3, s3) => (b3, s3)

/-- medianAdjacent_func: median(a-1, a, a+1). -/
def medianAdjacentGo (less : List α → ℕ → ℕ → Bool) (st : List α)
    (a swaps : ℕ) : ℕ × ℕ :=
  medianGo less st (a - 1) a (a + 1) swaps

/-- choosePivot_func: candidates at a + l/4*{1,2,3}; for l >= 8 the
median of the three (each refined by medianAdjacent when l >= 50, the
shortest ninther length); the hint is 0 (increasing) with zero swaps,
1 (decreasing) with the maximal 12, else 2 (unknown). -/
def choosePivotGo (less : List α → ℕ → ℕ → Bool) (st : List α) (a b : ℕ) :
    ℕ × ℕ :=
  let l := b - a
  let i := a + l / 4 * 1
  let j := a + l / 4 * 2
  let k := a + l / 4 * 3
  if 8 ≤ l then
    let r :=
      if 50 ≤ l then
        match medianAdjacentGo less st i 0 with
        | (i1, s1) =>
          match medianAdjacentGo less st j s1 with
          | (j1, s2) =>
            match medianAdjacentGo less st k s2 with
            | (k1, s3) => medianGo less st i1 j1 k1 s3
      else medianGo less st i j k 0
    if r.2 = 0 then (r.1, 0)
    else if r.2 = 12 then (r.1, 1)
    else (r.1, 2)
  else (j, 0)

/-- The scan for i < b && !data.Less(i, i-1) { i++ } of the partial
insertion sort (partialInsertionSort_func). -/
def pisScanGo (less : List α → ℕ → ℕ → Bool) (b : ℕ) :
    ℕ → List α → ℕ → ℕ
  | 0, _, i => i
  | f + 1, st, i =>
    if i < b ∧ ¬ less st i (i - 1) then pisScanGo less b f st (i + 1) else i

/-- Left shift loop of partialInsertionSort_func:
for j := i-1; j >= 1; j-- { if !data.Less(j, j-1) break; Swap } (the
lower bound 1 is as in the source, not a+1). -/
def pisLeftGo (less : List α → ℕ → ℕ → Bool) :
    ℕ → List α → ℕ → List α
  | 0, st, _ => st
  | f + 1, st, j =>
    if 1 ≤ j ∧ less st j (j - 1) then
      pisLeftGo less f (goSwap st j (j - 1)) (j - 1)
    else st

/-- Right shift loop of partialInsertionSort_func:
for j := i+1; j < b; j++ { if !data.Less(j, j-1) break; Swap }. -/
def pisRightGo (less : List α → ℕ → ℕ → Bool) (b : ℕ) :
    ℕ → List α → ℕ → List α
  | 0, st, _ => st
  | f + 1, st, j =>
    if j < b ∧ less st j (j - 1) then
      pisRightGo less b f (goSwap st j (j - 1)) (j + 1)
    else st

/-- The five attempts (maxSteps) of partialInsertionSort_func; each
scans to the first unsorted adjacent pair, succeeds when the scan
reaches b, gives up when b-a < 50 (shortestShifting), and otherwise
swaps the pair and shifts it left and right. Returns whether the range
ended fully sorted, with the state. -/
def pisStepsGo (less : List α → ℕ → ℕ → Bool) (a b : ℕ) :
    ℕ → List α → ℕ → Bool × List α
  | 0, st, _ => (false, st)
  | f + 1, st, i =>
    let i1 := pisScanGo less b b st i
    if i1 = b then (true, st)
    else if b - a < 50 then (false, st)
    else
      let st1 := goSwap st i1 (i1 - 1)
      let st2 := if 2 ≤ i1 - a then pisLeftGo less i1 st1 (i1 - 1) else st1
      let st3 := if 2 ≤ b - i1 then pisRightGo less b b st2 (i1 + 1) else st2
      pisStepsGo less a b f st3 i1

/-- partialInsertionSort_func from the Go runtime sort. -/
def finishNearlySortedGo (less : List α → ℕ → ℕ → Bool) (a b : ℕ)
    (st : List α) : Bool × List α :=
  pisStepsGo less a b 5 st (a + 1)

/-- partition_func scan: for i <= j && data.Less(i, a) { i++ }. -/
def partScanIGo (less : List α → ℕ → ℕ → Bool) (a : ℕ) :
    ℕ → List α → ℕ → ℕ → ℕ
  | 0, _, i, _ => i
  | f + 1, st, i, j =>
    if i ≤ j ∧ less st i a then partScanIGo less a f st (i + 1) j else i

/-- partition_func scan: for i <= j && !data.Less(j, a) { j-- }. -/
def partScanJGo (less : List α → ℕ → ℕ → Bool) (a : ℕ) :
    ℕ → List α → ℕ → ℕ → ℕ
  | 0, _, _, j => j
  | f + 1, st, i, j =>
    if i ≤ j ∧ ¬ less st j a then partScanJGo less a f st i (j - 1) else j

/-- Main loop of partition_func after the first crossing swap; returns
the state and the final j at the break. -/
def partLoopGo (less : List α → ℕ → ℕ → Bool) (a b : ℕ) :
    ℕ → List α → ℕ → ℕ → List α × ℕ
  | 0, st, _, j => (st, j)
  | f + 1, st, i, j =>
    let i1 := partScanIGo less a (b + 1) st i j
    let j1 := partScanJGo less a (b + 1) st i1 j
    if j1 < i1 then (st, j1)
    else partLoopGo less a b f (goSwap st i1 j1) (i1 + 1) (j1 - 1)

/-- partition_func from the Go runtime sort: moves the pivot to a,
scans from a+1 and b-1, and returns the state, the new pivot position
and whether the range was already partitioned. -/
def partitionGo (less : List α → ℕ → ℕ → Bool) (a b pivot : ℕ)
    (st : List α) : List α × ℕ × Bool :=
  let st0 := goSwap st a pivot
  let i0 := partScanIGo less a (b + 1) st0 (a + 1) (b - 1)
  let j0 := partScanJGo less a (b + 1) st0 i0 (b - 1)
  if j0 < i0 then (goSwap st0 j0 a, j0, true)
  else
    match partLoopGo less a b (b + 1) (goSwap st0 i0 j0) (i0 + 1) (j0 - 1) with
    | (st1, j1) => (goSwap st1 j1 a, j1, false)

/-- partitionEqual_func scan: for i <= j && !data.Less(a, i) { i++ }. -/
def peqScanIGo (less : List α → ℕ → ℕ → Bool) (a : ℕ) :
    ℕ → List α → ℕ → ℕ → ℕ
  | 0, _, i, _ => i
  | f + 1, st, i, j =>
    if i ≤ j ∧ ¬ less st a i then peqScanIGo less a f st (i + 1) j else i

/-- partitionEqual_func scan: for i <= j && data.Less(a, j) { j-- }. -/
def peqScanJGo (less : List α → ℕ → ℕ → Bool) (a : ℕ) :
    ℕ → List α → ℕ → ℕ → ℕ
  | 0, _, _, j => j
  | f + 1, st, i, j =>
    if i ≤ j ∧ less st a j then peqScanJGo less a f st i (j - 1) else j

/-- Loop of partitionEqual_func; returns the state and the final i. -/
def peqLoopGo (less : List α → ℕ → ℕ → Bool) (a b : ℕ) :
    ℕ → List α → ℕ → ℕ → List α × ℕ
  | 0, st, i, _ => (st, i)
  | f + 1, st, i, j =>
    let i1 := peqScanIGo less a (b + 1) st i j
    let j1 := peqScanJGo less a (b + 1) st i1 j
    if j1 < i1 then (st, i1)
    else peqLoopGo less a b f (goSwap st i1 j1) (i1 + 1) (j1 - 1)

/-- partitionEqual_func from the Go runtime sort: groups elements equal
to the pivot at the front, returning the first position past them. -/
def partitionEqualGo (less : List α → ℕ → ℕ → Bool) (a b pivot : ℕ)
    (st : List α) : List α × ℕ :=
  peqLoopGo less a b (b + 1) (goSwap st a pivot) (a + 1) (b - 1)

/-- pdqsort_func from the Go runtime sort. The outer for loop and the
recursion both shrink the range by at least one, so the nesting depth
is below the initial length plus two, which the fuel bounds. -/
def pdqsortGo (less : List α → ℕ → ℕ → Bool) :
    ℕ → List α → ℕ → ℕ → ℕ → Bool → Bool → List α
  | 0, st, _, _, _, _, _ => st
  | f + 1, st, a, b, limit, wasBalanced, wasPartitioned =>
    let length := b - a
    if length ≤ 12 then insertionSortGo less a b st
    else if limit = 0 then heapSortGo less a b st
    else
      let st1 := if wasBalanced then st else breakPatternsGo st a b
      let limit1 := if wasBalanced then limit else limit - 1
      let ph := choosePivotGo less st1 a b
      let st2 := if ph.2 = 1 then reverseRangeGo b st1 a (b - 1) else st1
      let pivot := if ph.2 = 1 then (b - 1) - (ph.1 - a) else ph.1
      let hint := if ph.2 = 1 then 0 else ph.2
      let pis :=
        if wasBalanced ∧ wasPartitioned ∧ hint = 0 then
          finishNearlySortedGo less a b st2
        else (false, st2)
      if pis.1 then pis.2
      else
        let st3 := pis.2
        if 0 < a ∧ ¬ less st3 (a - 1) pivot then
          match partitionEqualGo less a b pivot st3 with
          | (st4, mid) =>
            pdqsortGo less f st4 mid b limit1 wasBalanced wasPartitioned
        else
          match partitionGo less a b pivot st3 with
          | (st4, mid, alreadyPartitioned) =>
            let leftLen := mid - a
            let rightLen := b - mid
            let balanced := decide (min leftLen rightLen ≥ length / 8)
            if leftLen < rightLen then
              pdqsortGo less f
                (pdqsortGo less f st4 a mid limit1 true true)
                (mid + 1) b limit1 balanced alreadyPartitioned
            else
              pdqsortGo less f
                (pdqsortGo less f st4 (mid + 1) b limit1 true true)
                a mid limit1 balanced alreadyPartitioned

/-- sort.Slice of the Go 1.19+ runtime: pdqsort over the whole slice
with the bits.Len depth limit. -/
def goSortSlice (less : List α → ℕ → ℕ → Bool) (xs : List α) : List α :=
  pdqsortGo less (xs.length + 2) xs 0 xs.length (goBitsLen xs.length) true true

end GoRuntimeSort

/-- The sort.Slice comparator closure of resizeCpus: it reads the slice
being permuted at the two probed positions and hands the source
comparator those positions with the descriptors currently there. -/
def lessGo (cmp : ℕ × cpuTreeNodeAttributes → ℕ × cpuTreeNodeAttributes → Bool)
    (st : List cpuTreeNodeAttributes) (i j : ℕ) : Bool :=
  cmp (i, st.getD i default) (j, st.getD j default)

/-- resizeCpus with the tie resolution of the Go 1.19+ runtime:
identical to resizeCpus except that the surviving descriptors are
ordered by the ported sort.Slice rather than by the emission-index
reading of the comparator. On every input whose value keys admit a
unique minimal descriptor the two agree; on full ties they may return
different tied descriptors. -/
def resizeCpusGo (topologyBalancing : Bool) (root : cpuTreeNode)
    (currentCpus freeCpus : Finset ℕ) (delta : ℤ) :
    Except String (Finset ℕ × Finset ℕ) :=
  match
    if delta > 0 then
      goSortSlice (lessGo (sorterAllocate topologyBalancing))
        (root.ToAttributedSlice currentCpus freeCpus (resizeFilter delta))
    else
      goSortSlice (lessGo (sorterRelease topologyBalancing))
        (root.ToAttributedSlice currentCpus freeCpus (resizeFilter delta))
  with
  | [] => Except.error "not enough free CPUs"
  | tna :: _ => Except.ok (tna.freeCpus, tna.currentCpus)

/-- Collects maximal runs of consecutive ids, as the String method of
k8s cpuset does over the ascending element slice. -/
def cpusetRangesAux (start last : ℕ) : List ℕ → List (ℕ × ℕ)
  | [] => [(start, last)]
  | e :: es =>
    if e = last + 1 then cpusetRangesAux start e es
    else (start, last) :: cpusetRangesAux e e es

def cpusetRangeString (r : ℕ × ℕ) : String :=
  if r.1 = r.2 then toString r.1 else toString r.1 ++ "-" ++ toString r.2

/-- String rendering of a CPU set as k8s cpuset.CPUSet.String produces
it: ascending ids, runs of consecutive ids compressed to a-b, joined
with commas, empty set rendered empty. -/
def cpusetString (s : Finset ℕ) : String :=
  match s.sort (· ≤ ·) with
  | [] => ""
  | e :: es =>
    String.intercalate "," ((cpusetRangesAux e e es).map cpusetRangeString)

/-- The multi-CPU removal loop of ResizeCpus in the source: k releases
remain, n have been done (the loop counter), and removeFrom accumulates
the chosen CPUs. Each iteration runs a single-CPU resizeCpus, checks
that it proposed exactly one CPU and that the CPU is new, then moves the
CPU from currentCpus to freeCpus before the next iteration. -/
def removeLoop (topologyBalancing : Bool) (root : cpuTreeNode) :
    ℕ → ℕ → Finset ℕ → Finset ℕ → Finset ℕ →
    Except String (Finset ℕ × Finset ℕ)
  | 0, _, _, _, removeFrom => Except.ok (∅, removeFrom)
  | k + 1, n, currentCpus, freeCpus, removeFrom =>
    match resizeCpus topologyBalancing root currentCpus freeCpus (-1) with
    | Except.error e => Except.error e
    | Except.ok (_, removeSingleFrom) =>
      if removeSingleFrom.card ≠ 1 then
        Except.error ("internal error: failed to find single cpu to free, currentCpus=" ++
          cpusetString currentCpus ++ " freeCpus=" ++ cpusetString freeCpus ++
          " expectedSingle=" ++ cpusetString removeSingleFrom)
      else if (removeFrom ∪ removeSingleFrom).card ≠ n + 1 then
        Except.error ("internal error: double release of a cpu, currentCpus=" ++
          cpusetString currentCpus ++ " freeCpus=" ++ cpusetString freeCpus ++
          " alreadyRemoved=" ++ cpusetString removeFrom ++ " removedNow=" ++
          cpusetString removeSingleFrom)
      else
        removeLoop topologyBalancing root k (n + 1)
          (currentCpus \ removeSingleFrom) (freeCpus ∪ removeSingleFrom)
          (removeFrom ∪ removeSingleFrom)

/-- ResizeCpus from the source: positive delta goes to the single-shot
resizeCpus; zero or negative delta runs the removal loop abs(delta)
times starting from an empty removeFrom accumulator (the addFrom set of
this path is never assigned and stays empty). -/
def ResizeCpus (topologyBalancing : Bool) (root : cpuTreeNode)
    (currentCpus freeCpus : Finset ℕ) (delta : ℤ) :
    Except String (Finset ℕ × Finset ℕ) :=
  if delta > 0 then resizeCpus topologyBalancing root currentCpus freeCpus delta
  else removeLoop topologyBalancing root delta.natAbs 0 currentCpus freeCpus ∅

/-- The name table for topology levels from the source. -/
def cpuTopologyLevelToString : List (CPUTopologyLevel × String) :=
  [(CPUTopologyLevelUndefined, "undefined"),
   (CPUTopologyLevelSystem, "system"),
   (CPUTopologyLevelPackage, "package"),
   (CPUTopologyLevelDie, "die"),
   (CPUTopologyLevelNuma, "numa"),
   (CPUTopologyLevelCore, "core"),
   (CPUTopologyLevelThread, "thread")]

/-- The String method of CPUTopologyLevel from the source. -/
def cpuTopologyLevelString (ctl : CPUTopologyLevel) : String :=
  match cpuTopologyLevelToString.lookup ctl with
  | some s => s
  | none => "CPUTopologyLevelUnknown(" ++ toString ctl ++ ")"

def parseAtoiDigits : ℕ → List Char → Option ℕ
  | acc, [] => some acc
  | acc, c :: cs =>
    if '0' ≤ c ∧ c ≤ '9' then
      parseAtoiDigits (acc * 10 + (c.toNat - '0'.toNat)) cs
    else none

/-- The range acceptance of strconv.Atoi on the 64-bit targets of the
source: Go int is int64 there, so values outside [-2^63, 2^63-1] make
Atoi return a non-nil range error (out-of-range inputs are syntactically
parsed but rejected). -/
def goAtoiRange (v : ℤ) : Option ℤ :=
  if -(2 ^ 63) ≤ v ∧ v ≤ 2 ^ 63 - 1 then some v else none

/-- Go strconv.Atoi: an optional sign followed by at least one decimal
digit and nothing else, with the value required to fit the 64-bit Go
int. On a range error Atoi returns a non-nil error, which sends
UnmarshalJSON to the name path exactly as a syntax error does, so both
failure kinds are none here. -/
def parseAtoi (s : String) : Option ℤ :=
  match s.data with
  | [] => none
  | '+' :: cs =>
    if cs = [] then none
    else (parseAtoiDigits 0 cs).bind (fun n => goAtoiRange (n : ℤ))
  | '-' :: cs =>
    if cs = [] then none
    else (parseAtoiDigits 0 cs).bind (fun n => goAtoiRange (-(n : ℤ)))
  | cs => (parseAtoiDigits 0 cs).bind (fun n => goAtoiRange (n : ℤ))

/-- Go strings.ToLower on one character. The Unicode simple lowercase
mapping lands in ASCII exactly for A-Z, for U+0130 (Latin capital I
with dot above, lowercase i) and for U+212A (the Kelvin sign, lowercase
k); those are mapped exactly. Every other character maps to itself or
to another non-ASCII character; such a character can match neither the
quote nor any character of a level name on either side of the model, so
keeping it unchanged alters neither which inputs are accepted nor the
error produced. -/
def goToLower (c : Char) : Char :=
  if 'A' ≤ c ∧ c ≤ 'Z' then Char.ofNat (c.toNat + 32)
  else if c.toNat = 0x130 then 'i'
  else if c.toNat = 0x212A then 'k'
  else c

/-- UnmarshalJSON of CPUTopologyLevel from the source: first try
strconv.Atoi on the raw bytes and accept any in-range integer unchecked
against the defined levels; then lower-case the bytes, require a quoted
string of length above two, strip the quotes and look the name up in
the level table; otherwise fail with an error quoting the offending
bytes (the %q escaping of the source is modelled as plain quoting,
which agrees on inputs free of quotes, backslashes and control
characters; the length and slicing are per character rather than per
byte, which changes no outcome because a multi-byte character can
neither be a quote nor occur in a level name). -/
def unmarshalCPUTopologyLevel (b : String) : Except String CPUTopologyLevel :=
  match parseAtoi b with
  | some i => Except.ok i
  | none =>
    let name := b.data.map goToLower
    if name.length > 2 ∧ name.head? = some '"' ∧ name.getLast? = some '"' then
      match cpuTopologyLevelToString.find?
          (fun p => p.2.data == (name.drop 1).dropLast) with
      | some p => Except.ok p.1
      | none => Except.error ("unknown CPU topology level \"" ++ b ++ "\"")
    else Except.error ("unknown CPU topology level \"" ++ b ++ "\"")

instance {ε α : Type} [DecidableEq ε] [DecidableEq α] : DecidableEq (Except ε α) :=
  fun a b =>
    match a, b with
    | .error e, .error f =>
      match decEq e f with
      | isTrue h => isTrue (by rw [h])
      | isFalse h => isFalse (fun hab => h (by cases hab; rfl))
    | .error _, .ok _ => isFalse (fun hab => Except.noConfusion hab)
    | .ok _, .error _ => isFalse (fun hab => Except.noConfusion hab)
    | .ok x, .ok y =>
      match decEq x y with
      | isTrue h => isTrue (by rw [h])
      | isFalse h => isFalse (fun hab => h (by cases hab; rfl))

/-- Induction over the CPU tree: to prove a property of every tree it
suffices to prove it for a node assuming it for all children. -/
theorem cpuTreeNode.inductionOn (P : cpuTreeNode → Prop)
    (h : ∀ nm lv cs cpus, (∀ c ∈ cs, P c) → P (.mk nm lv cs cpus)) :
    ∀ t, P t := by
  intro t
  refine @cpuTreeNode.rec P (fun cs => ∀ c ∈ cs, P c) ?_ ?_ ?_ t
  · exact fun nm lv cs cpus ih => h nm lv cs cpus ih
  · intro c hc
    simp at hc
  · intro head tail ph ihtail c hc
    rcases List.mem_cons.mp hc with rfl | hm
    · exact ph
    · exact ihtail c hm

theorem descendants_def (nm : String) (lv : CPUTopologyLevel)
    (cs : List cpuTreeNode) (cpus : Finset ℕ) :
    descendants (.mk nm lv cs cpus) = .mk nm lv cs cpus :: descendantsList cs := by
  rw [descendants]

theorem self_mem_descendants (t : cpuTreeNode) : t ∈ descendants t := by
  cases t with
  | mk nm lv cs cpus => rw [descendants_def]; exact List.mem_cons_self _ _

theorem mem_descendantsList {s : cpuTreeNode} {cs : List cpuTreeNode} :
    s ∈ descendantsList cs ↔ ∃ c ∈ cs, s ∈ descendants c := by
  induction cs with
  | nil => rw [descendantsList]; simp
  | cons c cs ih =>
    rw [descendantsList]
    simp only [List.mem_append, List.mem_cons, ih]
    constructor
    · rintro (hs | ⟨c', hc', hs⟩)
      · exact ⟨c, Or.inl rfl, hs⟩
      · exact ⟨c', Or.inr hc', hs⟩
    · rintro ⟨c', hc' | hc', hs⟩
      · subst hc'; exact Or.inl hs
      · exact Or.inr ⟨c', hc', hs⟩

theorem descendants_step {s c t : cpuTreeNode} (hc : c ∈ t.children)
    (hs : s ∈ descendants c) : s ∈ descendants t := by
  cases t with
  | mk nm lv cs cpus =>
    rw [descendants_def]
    exact List.mem_cons_of_mem _ (mem_descendantsList.mpr ⟨c, hc, hs⟩)

/-- Tree well-formedness used by the feasibility arguments: along every
edge the child covers a subset of the CPUs of its parent. Trees built by
NewCpuTreeFromSystem satisfy this because AddCpus adds every CPU of a
node to all of its ancestors. -/
def cpusWellFormed (t : cpuTreeNode) : Prop :=
  ∀ s ∈ descendants t, ∀ c ∈ s.children, c.cpus ⊆ s.cpus

instance (t : cpuTreeNode) : Decidable (cpusWellFormed t) := by
  unfold cpusWellFormed; infer_instance

theorem cpusWellFormed_child {t c : cpuTreeNode} (hwf : cpusWellFormed t)
    (hc : c ∈ t.children) : cpusWellFormed c :=
  fun s hs => hwf s (descendants_step hc hs)

theorem descendants_cpus_subset {t : cpuTreeNode} (hwf : cpusWellFormed t) :
    ∀ s ∈ descendants t, s.cpus ⊆ t.cpus := by
  induction t using cpuTreeNode.inductionOn with
  | h nm lv cs cpus ih =>
    intro s hs
    rw [descendants_def] at hs
    rcases List.mem_cons.mp hs with rfl | hs
    · exact Finset.Subset.refl _
    · rcases mem_descendantsList.mp hs with ⟨c, hc, hsc⟩
      have hcs : c.cpus ⊆ cpuTreeNode.cpus (.mk nm lv cs cpus) :=
        hwf _ (self_mem_descendants _) c hc
      have := ih c hc (cpusWellFormed_child hwf hc) s hsc
      exact this.trans hcs

theorem toAttributedSliceList_mem {currentCpus freeCpus : Finset ℕ}
    {filter : cpuTreeNodeAttributes → Bool} {cs : List cpuTreeNode} {d : ℕ}
    {ccs fcs : List ℕ} {a : cpuTreeNodeAttributes}
    (ha : a ∈ toAttributedSliceList currentCpus freeCpus filter cs d ccs fcs) :
    ∃ c ∈ cs, a ∈ toAttributedSlice currentCpus freeCpus filter c d ccs fcs := by
  induction cs with
  | nil => rw [toAttributedSliceList] at ha; simp at ha
  | cons c cs ih =>
    rw [toAttributedSliceList] at ha
    rcases List.mem_append.mp ha with h | h
    · exact ⟨c, List.mem_cons_self _ _, h⟩
    · rcases ih h with ⟨c', hc', h'⟩
      exact ⟨c', List.mem_cons_of_mem _ hc', h'⟩

theorem toAttributedSlice_node_eq (currentCpus freeCpus : Finset ℕ)
    (filter : cpuTreeNodeAttributes → Bool) (t : cpuTreeNode) (d : ℕ)
    (ccs fcs : List ℕ) :
    toAttributedSlice currentCpus freeCpus filter t d ccs fcs =
      if filter (nodeAttributes t currentCpus freeCpus d ccs fcs) then
        nodeAttributes t currentCpus freeCpus d ccs fcs ::
          toAttributedSliceList currentCpus freeCpus filter t.children (d + 1)
            (ccs ++ [(t.cpus ∩ currentCpus).card])
            (fcs ++ [(t.cpus ∩ freeCpus).card])
      else [] := by
  cases t with
  | mk nm lv cs cpus =>
    rw [toAttributedSlice]
    simp only [nodeAttributes, cpuTreeNode.children, cpuTreeNode.cpus]

/-- Soundness of the attribution pass: every emitted descriptor belongs
to a visited node, passed the filter, and carries the intersection sets,
their cardinalities, and count vectors of length depth+1 extending the
incoming vectors by the counts of the node. -/
theorem toAttributedSlice_mem_spec (currentCpus freeCpus : Finset ℕ)
    (filter : cpuTreeNodeAttributes → Bool) :
    ∀ (t : cpuTreeNode) (d : ℕ) (ccs fcs : List ℕ),
    ccs.length = d → fcs.length = d →
    ∀ a ∈ toAttributedSlice currentCpus freeCpus filter t d ccs fcs,
      a.t ∈ descendants t ∧ filter a = true ∧ d ≤ a.depth ∧
      a.currentCpus = a.t.cpus ∩ currentCpus ∧
      a.freeCpus = a.t.cpus ∩ freeCpus ∧
      a.currentCpuCount = (a.t.cpus ∩ currentCpus).card ∧
      a.freeCpuCount = (a.t.cpus ∩ freeCpus).card ∧
      a.currentCpuCounts.length = a.depth + 1 ∧
      a.freeCpuCounts.length = a.depth + 1 ∧
      a.currentCpuCounts.take d = ccs ∧ a.freeCpuCounts.take d = fcs ∧
      (∃ p, a.currentCpuCounts = p ++ [a.currentCpuCount] ∧ p.length = a.depth) ∧
      (∃ q, a.freeCpuCounts = q ++ [a.freeCpuCount] ∧ q.length = a.depth) := by
  intro t
  induction t using cpuTreeNode.inductionOn with
  | h nm lv cs cpus ih =>
    intro d ccs fcs hccs hfcs a ha
    rw [toAttributedSlice_node_eq] at ha
    by_cases hf : filter (nodeAttributes (.mk nm lv cs cpus) currentCpus freeCpus d ccs fcs)
    · rw [if_pos hf] at ha
      rcases List.mem_cons.mp ha with rfl | ha
      · refine ⟨self_mem_descendants _, hf, le_refl _, rfl, rfl, rfl, rfl, ?_, ?_, ?_, ?_, ?_, ?_⟩
        · simp [nodeAttributes, hccs]
        · simp [nodeAttributes, hfcs]
        · simp only [nodeAttributes]
          rw [← hccs, List.take_left]
        · simp only [nodeAttributes]
          rw [← hfcs, List.take_left]
        · exact ⟨ccs, rfl, hccs⟩
        · exact ⟨fcs, rfl, hfcs⟩
      · rcases toAttributedSliceList_mem ha with ⟨c, hc, hac⟩
        have hcc1 : (ccs ++ [(cpuTreeNode.cpus (.mk nm lv cs cpus) ∩ currentCpus).card]).length = d + 1 := by
          simp [hccs]
        have hfc1 : (fcs ++ [(cpuTreeNode.cpus (.mk nm lv cs cpus) ∩ freeCpus).card]).length = d + 1 := by
          simp [hfcs]
        have hchild : c ∈ cpuTreeNode.children (.mk nm lv cs cpus) := hc
        obtain ⟨h1, h2, h3, h4, h5, h6, h7, h8, h9, h10, h11, h12, h13⟩ :=
          ih c hc (d + 1) _ _ hcc1 hfc1 a hac
        refine ⟨descendants_step hchild h1, h2, le_trans (Nat.le_succ d) h3,
          h4, h5, h6, h7, h8, h9, ?_, ?_, h12, h13⟩
        · have : a.currentCpuCounts.take d = (a.currentCpuCounts.take (d + 1)).take d := by
            rw [List.take_take]
            congr 1
            omega
          rw [this, h10, ← hccs, List.take_left]
        · have : a.freeCpuCounts.take d = (a.freeCpuCounts.take (d + 1)).take d := by
            rw [List.take_take]
            congr 1
            omega
          rw [this, h11, ← hfcs, List.take_left]
    · rw [if_neg hf] at ha
      simp at ha

theorem lexDiff_self (l : List ℕ) : lexDiff l l = none := by
  induction l with
  | nil => rfl
  | cons x xs ih => rw [lexDiff]; simp [ih]

theorem lexDiff_none_symm : ∀ {a b : List ℕ}, lexDiff a b = none → lexDiff b a = none := by
  intro a
  induction a with
  | nil =>
    intro b _
    cases b with
    | nil => rfl
    | cons y ys => rfl
  | cons x xs ih =>
    intro b h
    cases b with
    | nil => rfl
    | cons y ys =>
      rw [lexDiff] at h ⊢
      by_cases hxy : x = y
      · subst hxy
        simp only [if_pos rfl] at h ⊢
        exact ih h
      · simp [hxy] at h
  
theorem lexDiff_some_symm : ∀ {a b : List ℕ} {x y : ℕ},
    lexDiff a b = some (x, y) → lexDiff b a = some (y, x) := by
  intro a
  induction a with
  | nil => intro b x y h; rw [lexDiff] at h; exact absurd h (by simp)
  | cons u us ih =>
    intro b x y h
    cases b with
    | nil => rw [lexDiff] at h; exact absurd h (by simp)
    | cons v vs =>
      rw [lexDiff] at h ⊢
      by_cases huv : u = v
      · subst huv
        simp only [if_pos rfl] at h ⊢
        exact ih h
      · simp only [if_neg huv] at h
        have hvu : ¬ v = u := fun hc => huv hc.symm
        simp only [if_neg hvu]
        cases h
        rfl

theorem lexDiff_some_ne : ∀ {a b : List ℕ} {x y : ℕ},
    lexDiff a b = some (x, y) → x ≠ y := by
  intro a
  induction a with
  | nil => intro b x y h; rw [lexDiff] at h; exact absurd h (by simp)
  | cons u us ih =>
    intro b x y h
    cases b with
    | nil => rw [lexDiff] at h; exact absurd h (by simp)
    | cons v vs =>
      rw [lexDiff] at h
      by_cases huv : u = v
      · subst huv
        simp only [if_pos rfl] at h
        exact ih h
      · simp only [if_neg huv] at h
        cases h
        exact huv

theorem lexDiff_none_eq : ∀ {a b : List ℕ}, a.length = b.length →
    lexDiff a b = none → a = b := by
  intro a
  induction a with
  | nil =>
    intro b hl _
    cases b with
    | nil => rfl
    | cons y ys => simp at hl
  | cons x xs ih =>
    intro b hl h
    cases b with
    | nil => simp at hl
    | cons y ys =>
      rw [lexDiff] at h
      by_cases hxy : x = y
      · subst hxy
        simp only [if_pos rfl] at h
        simp only [List.length_cons, Nat.add_right_cancel_iff] at hl
        rw [ih hl h]
      · simp [hxy] at h

theorem lexDiff_append_ne (p : List ℕ) {x y : ℕ} (u v : List ℕ) (h : x ≠ y) :
    lexDiff (p ++ x :: u) (p ++ y :: v) = some (x, y) := by
  induction p with
  | nil => simp only [List.nil_append]; rw [lexDiff]; simp [h]
  | cons z zs ih => simp only [List.cons_append]; rw [lexDiff]; simp [ih]

/-- Direction-parametric comparison of two entries: greater-first when
gt is set, smaller-first otherwise. -/
def cmpDir (gt : Bool) (x y : ℕ) : Bool :=
  if gt then decide (x > y) else decide (x < y)

theorem cmpDir_trans {gt : Bool} {x y z : ℕ} (h1 : cmpDir gt x y = true)
    (h2 : cmpDir gt y z = true) : cmpDir gt x z = true := by
  cases gt <;> simp [cmpDir, decide_eq_true_eq] at h1 h2 ⊢ <;> omega

theorem cmpDir_total {gt : Bool} {x y : ℕ} (h : x ≠ y) :
    cmpDir gt x y = true ∨ cmpDir gt y x = true := by
  cases gt <;> simp [cmpDir, decide_eq_true_eq] <;> omega

theorem cmpDir_asymm {gt : Bool} {x y : ℕ} (h : cmpDir gt x y = true) :
    ¬ cmpDir gt y x = true := by
  cases gt <;> simp [cmpDir, decide_eq_true_eq] at h ⊢ <;> omega

theorem cmpDir_irrefl {gt : Bool} {x : ℕ} : ¬ cmpDir gt x x = true := by
  cases gt <;> simp [cmpDir]

/-- Strict part of the first-difference comparison of two vectors. -/
def listLess (gt : Bool) (a b : List ℕ) : Bool :=
  match lexDiff a b with
  | some (x, y) => cmpDir gt x y
  | none => false

theorem listLess_cons (gt : Bool) (x y : ℕ) (xs ys : List ℕ) :
    listLess gt (x :: xs) (y :: ys) =
      if x = y then listLess gt xs ys else cmpDir gt x y := by
  unfold listLess
  rw [lexDiff]
  by_cases hxy : x = y <;> simp [hxy]

theorem listLess_trans (gt : Bool) : ∀ {a b c : List ℕ},
    a.length = b.length → b.length = c.length →
    listLess gt a b = true → listLess gt b c = true → listLess gt a c = true := by
  intro a
  induction a with
  | nil =>
    intro b c _ _ h1 _
    simp [listLess, lexDiff] at h1
  | cons x xs ih =>
    intro b c hab hbc h1 h2
    cases b with
    | nil => simp at hab
    | cons y ys =>
      cases c with
      | nil => simp at hbc
      | cons z zs =>
        simp only [List.length_cons, Nat.add_right_cancel_iff] at hab hbc
        rw [listLess_cons] at h1 h2 ⊢
        by_cases hxy : x = y
        · subst hxy
          simp only [if_pos rfl] at h1
          by_cases hyz : x = z
          · subst hyz
            simp only [if_pos rfl] at h2 ⊢
            exact ih hab hbc h1 h2
          · simp only [if_neg hyz] at h2 ⊢
            exact h2
        · simp only [if_neg hxy] at h1
          by_cases hyz : y = z
          · subst hyz
            simp only [if_neg hxy]
            exact h1
          · simp only [if_neg hyz] at h2
            have hxz : x ≠ z := by
              intro hc
              subst hc
              exact cmpDir_irrefl (cmpDir_trans h1 h2)
            simp only [if_neg hxz]
            exact cmpDir_trans h1 h2

theorem listLess_total (gt : Bool) : ∀ {a b : List ℕ}, a.length = b.length →
    a ≠ b → listLess gt a b = true ∨ listLess gt b a = true := by
  intro a
  induction a with
  | nil =>
    intro b hl hne
    cases b with
    | nil => exact absurd rfl hne
    | cons y ys => simp at hl
  | cons x xs ih =>
    intro b hl hne
    cases b with
    | nil => simp at hl
    | cons y ys =>
      simp only [List.length_cons, Nat.add_right_cancel_iff] at hl
      rw [listLess_cons, listLess_cons]
      by_cases hxy : x = y
      · subst hxy
        simp only [if_pos rfl]
        refine ih hl ?_
        intro hc
        exact hne (by rw [hc])
      · have hyx : ¬ y = x := fun hc => hxy hc.symm
        simp only [if_neg hxy, if_neg hyx]
        exact @cmpDir_total gt x y hxy

theorem listLess_of_lexDiff {gt : Bool} {a b : List ℕ} {x y : ℕ}
    (h : lexDiff a b = some (x, y)) : listLess gt a b = cmpDir gt x y := by
  unfold listLess
  rw [h]

/-- Generic form shared by the two sorters: primary key depth (deeper
first), then the first difference of the current-count vectors in
direction cc, then of the free-count vectors in direction fc, then the
emission indices in direction idx. -/
def tnaLess (cc fc idx : Bool) (p q : ℕ × cpuTreeNodeAttributes) : Bool :=
  if p.2.depth ≠ q.2.depth then decide (p.2.depth > q.2.depth)
  else
    match lexDiff p.2.currentCpuCounts q.2.currentCpuCounts with
    | some (x, y) => cmpDir cc x y
    | none =>
      match lexDiff p.2.freeCpuCounts q.2.freeCpuCounts with
      | some (x, y) => cmpDir fc x y
      | none => cmpDir idx p.1 q.1

theorem sorterAllocate_eq_tnaLess (b : Bool) (p q : ℕ × cpuTreeNodeAttributes) :
    sorterAllocate b p q = tnaLess true b true p q := rfl

theorem sorterRelease_eq_tnaLess (b : Bool) (p q : ℕ × cpuTreeNodeAttributes) :
    sorterRelease b p q = tnaLess false false false p q := by
  cases b <;> rfl

/-- Count vectors of a descriptor have the length depth+1 that the
attribution pass gives every emitted descriptor. -/
def vecLengthsOK (a : cpuTreeNodeAttributes) : Prop :=
  a.currentCpuCounts.length = a.depth + 1 ∧ a.freeCpuCounts.length = a.depth + 1

theorem tnaLess_eq_depth (cc fc idx : Bool) {p q : ℕ × cpuTreeNodeAttributes}
    (hd : p.2.depth = q.2.depth) (hp : vecLengthsOK p.2) (hq : vecLengthsOK q.2) :
    (tnaLess cc fc idx p q = true ↔
      (listLess cc p.2.currentCpuCounts q.2.currentCpuCounts = true ∨
       (p.2.currentCpuCounts = q.2.currentCpuCounts ∧
        (listLess fc p.2.freeCpuCounts q.2.freeCpuCounts = true ∨
         (p.2.freeCpuCounts = q.2.freeCpuCounts ∧ cmpDir idx p.1 q.1 = true))))) := by
  have hlc : p.2.currentCpuCounts.length = q.2.currentCpuCounts.length := by
    rw [hp.1, hq.1, hd]
  have hlf : p.2.freeCpuCounts.length = q.2.freeCpuCounts.length := by
    rw [hp.2, hq.2, hd]
  unfold tnaLess
  rw [if_neg (by simp [hd])]
  rcases hcc : lexDiff p.2.currentCpuCounts q.2.currentCpuCounts with _ | ⟨x, y⟩
  · have hcceq := lexDiff_none_eq hlc hcc
    rcases hfc : lexDiff p.2.freeCpuCounts q.2.freeCpuCounts with _ | ⟨u, v⟩
    · have hfceq := lexDiff_none_eq hlf hfc
      simp [listLess, hcc, hfc, hcceq, hfceq, lexDiff_self]
    · have hfcne : p.2.freeCpuCounts ≠ q.2.freeCpuCounts := by
        intro hceq
        rw [hceq, lexDiff_self] at hfc
        exact absurd hfc (by simp)
      simp [listLess, hcc, hfc, hcceq, hfcne, lexDiff_self]
  · have hccne : p.2.currentCpuCounts ≠ q.2.currentCpuCounts := by
      intro hc
      rw [hc, lexDiff_self] at hcc
      exact absurd hcc (by simp)
    simp [listLess, hcc, hccne]

theorem tnaLess_ne_depth (cc fc idx : Bool) {p q : ℕ × cpuTreeNodeAttributes}
    (hd : p.2.depth ≠ q.2.depth) :
    (tnaLess cc fc idx p q = true ↔ q.2.depth < p.2.depth) := by
  unfold tnaLess
  rw [if_pos (by simp [hd])]
  simp [decide_eq_true_eq]

theorem tnaLess_total (cc fc idx : Bool) (p q : ℕ × cpuTreeNodeAttributes)
    (h : p.1 ≠ q.1) :
    tnaLess cc fc idx p q = true ∨ tnaLess cc fc idx q p = true := by
  by_cases hd : p.2.depth = q.2.depth
  · unfold tnaLess
    rw [if_neg (by simp [hd]), if_neg (by simp [hd.symm])]
    rcases hcc : lexDiff p.2.currentCpuCounts q.2.currentCpuCounts with _ | ⟨x, y⟩
    · have hcc2 := lexDiff_none_symm hcc
      simp only [hcc, hcc2]
      rcases hfc : lexDiff p.2.freeCpuCounts q.2.freeCpuCounts with _ | ⟨u, v⟩
      · have hfc2 := lexDiff_none_symm hfc
        simp only [hfc, hfc2]
        exact cmpDir_total h
      · have hfc2 := lexDiff_some_symm hfc
        simp only [hfc, hfc2]
        exact cmpDir_total (lexDiff_some_ne hfc)
    · have hcc2 := lexDiff_some_symm hcc
      simp only [hcc, hcc2]
      exact cmpDir_total (lexDiff_some_ne hcc)
  · rcases Nat.lt_or_ge p.2.depth q.2.depth with hlt | hge
    · right
      rw [tnaLess_ne_depth cc fc idx (fun hc => hd hc.symm)]
      exact hlt
    · left
      rw [tnaLess_ne_depth cc fc idx hd]
      omega

theorem tnaLess_trans (cc fc idx : Bool) {p q r : ℕ × cpuTreeNodeAttributes}
    (hp : vecLengthsOK p.2) (hq : vecLengthsOK q.2) (hr : vecLengthsOK r.2)
    (h1 : tnaLess cc fc idx p q = true) (h2 : tnaLess cc fc idx q r = true) :
    tnaLess cc fc idx p r = true := by
  by_cases hdpq : p.2.depth = q.2.depth
  · by_cases hdqr : q.2.depth = r.2.depth
    · have hdpr : p.2.depth = r.2.depth := hdpq.trans hdqr
      have hlcpq : p.2.currentCpuCounts.length = q.2.currentCpuCounts.length := by
        rw [hp.1, hq.1, hdpq]
      have hlcqr : q.2.currentCpuCounts.length = r.2.currentCpuCounts.length := by
        rw [hq.1, hr.1, hdqr]
      have hlfpq : p.2.freeCpuCounts.length = q.2.freeCpuCounts.length := by
        rw [hp.2, hq.2, hdpq]
      have hlfqr : q.2.freeCpuCounts.length = r.2.freeCpuCounts.length := by
        rw [hq.2, hr.2, hdqr]
      rw [tnaLess_eq_depth cc fc idx hdpq hp hq] at h1
      rw [tnaLess_eq_depth cc fc idx hdqr hq hr] at h2
      rw [tnaLess_eq_depth cc fc idx hdpr hp hr]
      rcases h1 with h1 | ⟨hcceq1, h1⟩
      · rcases h2 with h2 | ⟨hcceq2, h2⟩
        · exact Or.inl (listLess_trans cc hlcpq hlcqr h1 h2)
        · rw [hcceq2] at h1
          exact Or.inl h1
      · rcases h2 with h2 | ⟨hcceq2, h2⟩
        · rw [← hcceq1] at h2
          exact Or.inl h2
        · refine Or.inr ⟨hcceq1.trans hcceq2, ?_⟩
          rcases h1 with h1 | ⟨hfceq1, h1⟩
          · rcases h2 with h2 | ⟨hfceq2, h2⟩
            · exact Or.inl (listLess_trans fc hlfpq hlfqr h1 h2)
            · rw [hfceq2] at h1
              exact Or.inl h1
          · rcases h2 with h2 | ⟨hfceq2, h2⟩
            · rw [← hfceq1] at h2
              exact Or.inl h2
            · exact Or.inr ⟨hfceq1.trans hfceq2, cmpDir_trans h1 h2⟩
    · have h2' := (tnaLess_ne_depth cc fc idx hdqr).mp h2
      have hdpr : p.2.depth ≠ r.2.depth := by
        rw [hdpq]; omega
      rw [tnaLess_ne_depth cc fc idx hdpr]
      rw [hdpq]
      exact h2'
  · have h1' := (tnaLess_ne_depth cc fc idx hdpq).mp h1
    by_cases hdqr : q.2.depth = r.2.depth
    · have hdpr : p.2.depth ≠ r.2.depth := by
        rw [← hdqr]; exact hdpq
      rw [tnaLess_ne_depth cc fc idx hdpr, ← hdqr]
      exact h1'
    · have h2' := (tnaLess_ne_depth cc fc idx hdqr).mp h2
      have hdpr : p.2.depth ≠ r.2.depth := by omega
      rw [tnaLess_ne_depth cc fc idx hdpr]
      omega

/-- The value keys of the two comparators without the final index
comparison: depth (deeper first), then the first difference of the
current-count vectors in direction cc, then of the free-count vectors
in direction fc; false on a full tie. Two descriptors tying on all
three are ordered by the sort's in-flight position comparison alone,
which the source does not determine. -/
def tnaKeyLess (cc fc : Bool) (x y : cpuTreeNodeAttributes) : Bool :=
  if x.depth ≠ y.depth then decide (x.depth > y.depth)
  else
    match lexDiff x.currentCpuCounts y.currentCpuCounts with
    | some (u, v) => cmpDir cc u v
    | none =>
      match lexDiff x.freeCpuCounts y.freeCpuCounts with
      | some (u, v) => cmpDir fc u v
      | none => false

theorem tnaKeyLess_irrefl (cc fc : Bool) (x : cpuTreeNodeAttributes) :
    tnaKeyLess cc fc x x = false := by
  unfold tnaKeyLess
  rw [if_neg (by simp)]
  simp only [lexDiff_self]

theorem tnaKeyLess_tnaLess (cc fc idx : Bool) {x y : cpuTreeNodeAttributes}
    (h : tnaKeyLess cc fc x y = true) (i j : ℕ) :
    tnaLess cc fc idx (i, x) (j, y) = true := by
  unfold tnaKeyLess at h
  unfold tnaLess
  dsimp only at h ⊢
  by_cases hd : x.depth = y.depth
  · rw [if_neg (by simp [hd])] at h ⊢
    rcases hcc : lexDiff x.currentCpuCounts y.currentCpuCounts with _ | ⟨u, v⟩
    · simp only [hcc] at h ⊢
      rcases hfc : lexDiff x.freeCpuCounts y.freeCpuCounts with _ | ⟨u, v⟩
      · simp only [hfc] at h
        exact absurd h (by simp)
      · simp only [hfc] at h ⊢
        exact h
    · simp only [hcc] at h ⊢
      exact h
  · rw [if_pos (by simp [hd])] at h ⊢
    exact h

theorem tnaLess_irrefl (cc fc idx : Bool) (p : ℕ × cpuTreeNodeAttributes) :
    tnaLess cc fc idx p p = false := by
  unfold tnaLess
  rw [if_neg (by simp)]
  simp only [lexDiff_self]
  cases h : cmpDir idx p.1 p.1
  · rfl
  · exact absurd h cmpDir_irrefl

theorem tnaLess_asymm (cc fc idx : Bool) {p q : ℕ × cpuTreeNodeAttributes}
    (hp : vecLengthsOK p.2) (hq : vecLengthsOK q.2)
    (h1 : tnaLess cc fc idx p q = true) (h2 : tnaLess cc fc idx q p = true) :
    False := by
  have hpp := tnaLess_trans cc fc idx hp hq hp h1 h2
  rw [tnaLess_irrefl cc fc idx p] at hpp
  exact Bool.false_ne_true hpp

theorem withIdx_cons {α : Type} (i : ℕ) (a : α) (as : List α) :
    withIdx i (a :: as) = (i, a) :: withIdx (i + 1) as := by
  rw [withIdx]

theorem withIdx_mem_spec {α : Type} : ∀ {l : List α} {i : ℕ} {p : ℕ × α},
    p ∈ withIdx i l → i ≤ p.1 ∧ p.2 ∈ l := by
  intro l
  induction l with
  | nil => intro i p hp; rw [withIdx] at hp; simp at hp
  | cons a as ih =>
    intro i p hp
    rw [withIdx_cons] at hp
    rcases List.mem_cons.mp hp with rfl | hp
    · exact ⟨le_refl _, List.mem_cons_self _ _⟩
    · have := ih hp
      exact ⟨by omega, List.mem_cons_of_mem _ this.2⟩

theorem withIdx_fst_inj {α : Type} : ∀ {l : List α} {i : ℕ} {p q : ℕ × α},
    p ∈ withIdx i l → q ∈ withIdx i l → p.1 = q.1 → p = q := by
  intro l
  induction l with
  | nil => intro i p q hp _ _; rw [withIdx] at hp; simp at hp
  | cons a as ih =>
    intro i p q hp hq h
    rw [withIdx_cons] at hp hq
    rcases List.mem_cons.mp hp with rfl | hp
    · rcases List.mem_cons.mp hq with rfl | hq
      · rfl
      · have := (withIdx_mem_spec hq).1
        omega
    · rcases List.mem_cons.mp hq with rfl | hq
      · have := (withIdx_mem_spec hp).1
        simp only at h
        omega
      · exact ih hp hq h

theorem withIdx_exists_of_mem {α : Type} : ∀ {l : List α} {a : α} (i : ℕ),
    a ∈ l → ∃ j, (j, a) ∈ withIdx i l := by
  intro l
  induction l with
  | nil => intro a i ha; simp at ha
  | cons b bs ih =>
    intro a i ha
    rw [withIdx_cons]
    rcases List.mem_cons.mp ha with rfl | ha
    · exact ⟨i, List.mem_cons_self _ _⟩
    · rcases ih (i + 1) ha with ⟨j, hj⟩
      exact ⟨j, List.mem_cons_of_mem _ hj⟩

theorem foldl_select_mem {α : Type} (less : α → α → Bool) :
    ∀ (l : List α) (x : α),
    l.foldl (fun acc y => if less y acc then y else acc) x ∈ x :: l := by
  intro l
  induction l with
  | nil => intro x; simp
  | cons a as ih =>
    intro x
    simp only [List.foldl_cons]
    by_cases h : less a x = true
    · simp only [if_pos h]
      exact List.mem_cons_of_mem _ (ih a)
    · simp only [if_neg h]
      rcases List.mem_cons.mp (ih x) with hx | hx
      · rw [hx]; exact List.mem_cons_self _ _
      · exact List.mem_cons_of_mem _ (List.mem_cons_of_mem _ hx)

theorem foldl_select_least {α : Type} (less : α → α → Bool) :
    ∀ (l : List α) (x : α),
    (∀ p ∈ x :: l, ∀ q ∈ x :: l, p ≠ q → less p q = true ∨ less q p = true) →
    (∀ p ∈ x :: l, ∀ q ∈ x :: l, ∀ r ∈ x :: l,
      less p q = true → less q r = true → less p r = true) →
    ∀ y ∈ x :: l, y ≠ l.foldl (fun acc y => if less y acc then y else acc) x →
      less (l.foldl (fun acc y => if less y acc then y else acc) x) y = true := by
  intro l
  induction l with
  | nil =>
    intro x _ _ y hy hne
    rcases List.mem_cons.mp hy with rfl | hy
    · exact absurd rfl hne
    · simp at hy
  | cons a as ih =>
    intro x htot htrans y hy hne
    simp only [List.foldl_cons] at hne ⊢
    set x' := if less a x then a else x with hx'
    have hx'mem : x' ∈ x :: a :: as := by
      by_cases h : less a x = true
      · rw [hx', if_pos h]; exact List.mem_cons_of_mem _ (List.mem_cons_self _ _)
      · rw [hx', if_neg h]; exact List.mem_cons_self _ _
    have hsub : ∀ z ∈ x' :: as, z ∈ x :: a :: as := by
      intro z hz
      rcases List.mem_cons.mp hz with rfl | hz
      · exact hx'mem
      · exact List.mem_cons_of_mem _ (List.mem_cons_of_mem _ hz)
    have htot' : ∀ p ∈ x' :: as, ∀ q ∈ x' :: as, p ≠ q →
        less p q = true ∨ less q p = true :=
      fun p hp q hq => htot p (hsub p hp) q (hsub q hq)
    have htrans' : ∀ p ∈ x' :: as, ∀ q ∈ x' :: as, ∀ r ∈ x' :: as,
        less p q = true → less q r = true → less p r = true :=
      fun p hp q hq r hr => htrans p (hsub p hp) q (hsub q hq) r (hsub r hr)
    set m := as.foldl (fun acc y => if less y acc then y else acc) x' with hm
    have hmmem : m ∈ x' :: as := foldl_select_mem less as x'
    have hmm : m ∈ x :: a :: as := hsub m hmmem
    have IH := ih x' htot' htrans'
    have hamem : a ∈ x :: a :: as :=
      List.mem_cons_of_mem _ (List.mem_cons_self _ _)
    have hxmem : x ∈ x :: a :: as := List.mem_cons_self _ _
    rcases List.mem_cons.mp hy with hyx | hy'
    · by_cases hax : less a x = true
      · have hx'a : x' = a := by rw [hx', if_pos hax]
        by_cases hma : m = a
        · rw [hyx, hma]
          exact hax
        · have hlma : less m a = true := by
            refine IH a ?_ (fun hc => hma hc.symm)
            rw [← hx'a]
            exact List.mem_cons_self _ _
          rw [hyx]
          exact htrans m hmm a hamem x hxmem hlma hax
      · have hx'x : x' = x := by rw [hx', if_neg hax]
        refine IH y ?_ hne
        rw [hyx, ← hx'x]
        exact List.mem_cons_self _ _
    · rcases List.mem_cons.mp hy' with hya | hyas
      · by_cases hax : less a x = true
        · have hx'a : x' = a := by rw [hx', if_pos hax]
          refine IH y ?_ hne
          rw [hya, ← hx'a]
          exact List.mem_cons_self _ _
        · have hx'x : x' = x := by rw [hx', if_neg hax]
          by_cases haxeq : a = x
          · refine IH y ?_ hne
            rw [hya, haxeq, ← hx'x]
            exact List.mem_cons_self _ _
          · have hlxa : less x a = true := by
              rcases htot a hamem x hxmem haxeq with h | h
              · exact absurd h hax
              · exact h
            by_cases hmx : m = x
            · rw [hya, hmx]
              exact hlxa
            · have hlmx : less m x = true := by
                refine IH x ?_ (fun hc => hmx hc.symm)
                rw [← hx'x]
                exact List.mem_cons_self _ _
              rw [hya]
              exact htrans m hmm x hxmem a hamem hlmx hlxa
      · exact IH y (List.mem_cons_of_mem _ hyas) hne

theorem selectFirst_eq_none {α : Type} (less : α → α → Bool) (l : List α) :
    selectFirst less l = none ↔ l = [] := by
  cases l with
  | nil => simp [selectFirst]
  | cons x xs => simp [selectFirst]

theorem selectFirst_spec {α : Type} (less : α → α → Bool) {l : List α} {m : α}
    (hm : selectFirst less l = some m)
    (htot : ∀ p ∈ l, ∀ q ∈ l, p ≠ q → less p q = true ∨ less q p = true)
    (htrans : ∀ p ∈ l, ∀ q ∈ l, ∀ r ∈ l,
      less p q = true → less q r = true → less p r = true) :
    m ∈ l ∧ ∀ y ∈ l, y ≠ m → less m y = true := by
  cases l with
  | nil => exact absurd hm (by simp [selectFirst])
  | cons x xs =>
    rw [selectFirst] at hm
    have hm' := Option.some_injective _ hm
    subst hm'
    exact ⟨foldl_select_mem less xs x, foldl_select_least less xs x htot htrans⟩

theorem selectFirst_mem {α : Type} (less : α → α → Bool) {l : List α} {m : α}
    (hm : selectFirst less l = some m) : m ∈ l := by
  cases l with
  | nil => exact absurd hm (by simp [selectFirst])
  | cons x xs =>
    rw [selectFirst] at hm
    have hm' := Option.some_injective _ hm
    subst hm'
    exact foldl_select_mem less xs x

theorem ToAttributedSlice_mem_spec {t : cpuTreeNode} {currentCpus freeCpus : Finset ℕ}
    {filter : cpuTreeNodeAttributes → Bool} :
    ∀ a ∈ t.ToAttributedSlice currentCpus freeCpus filter,
      a.t ∈ descendants t ∧ filter a = true ∧
      a.currentCpus = a.t.cpus ∩ currentCpus ∧
      a.freeCpus = a.t.cpus ∩ freeCpus ∧
      a.currentCpuCount = (a.t.cpus ∩ currentCpus).card ∧
      a.freeCpuCount = (a.t.cpus ∩ freeCpus).card ∧
      vecLengthsOK a := by
  intro a ha
  obtain ⟨h1, h2, _, h4, h5, h6, h7, h8, h9, _⟩ :=
    toAttributedSlice_mem_spec currentCpus freeCpus filter t 0 [] [] rfl rfl a ha
  exact ⟨h1, h2, h4, h5, h6, h7, h8, h9⟩

theorem withIdx_tnaLess_total (cc fc idx : Bool) (tnas : List cpuTreeNodeAttributes) :
    ∀ p ∈ withIdx 0 tnas, ∀ q ∈ withIdx 0 tnas, p ≠ q →
      tnaLess cc fc idx p q = true ∨ tnaLess cc fc idx q p = true := by
  intro p hp q hq hne
  refine tnaLess_total cc fc idx p q ?_
  intro hfst
  exact hne (withIdx_fst_inj hp hq hfst)

theorem withIdx_tnaLess_trans (cc fc idx : Bool) {tnas : List cpuTreeNodeAttributes}
    (hlen : ∀ a ∈ tnas, vecLengthsOK a) :
    ∀ p ∈ withIdx 0 tnas, ∀ q ∈ withIdx 0 tnas, ∀ r ∈ withIdx 0 tnas,
      tnaLess cc fc idx p q = true → tnaLess cc fc idx q r = true →
      tnaLess cc fc idx p r = true := by
  intro p hp q hq r hr h1 h2
  exact tnaLess_trans cc fc idx
    (hlen p.2 (withIdx_mem_spec hp).2)
    (hlen q.2 (withIdx_mem_spec hq).2)
    (hlen r.2 (withIdx_mem_spec hr).2) h1 h2

theorem resizeCpus_pos_eq (topologyBalancing : Bool) (root : cpuTreeNode)
    (currentCpus freeCpus : Finset ℕ) {delta : ℤ} (hd : delta > 0) :
    resizeCpus topologyBalancing root currentCpus freeCpus delta =
      match selectFirst (sorterAllocate topologyBalancing)
          (withIdx 0 (root.ToAttributedSlice currentCpus freeCpus (resizeFilter delta))) with
      | none => Except.error "not enough free CPUs"
      | some p => Except.ok (p.2.freeCpus, p.2.currentCpus) := by
  unfold resizeCpus
  rw [if_pos hd]

theorem resizeCpus_nonpos_eq (topologyBalancing : Bool) (root : cpuTreeNode)
    (currentCpus freeCpus : Finset ℕ) {delta : ℤ} (hd : ¬ delta > 0) :
    resizeCpus topologyBalancing root currentCpus freeCpus delta =
      match selectFirst (sorterRelease topologyBalancing)
          (withIdx 0 (root.ToAttributedSlice currentCpus freeCpus (resizeFilter delta))) with
      | none => Except.error "not enough free CPUs"
      | some p => Except.ok (p.2.freeCpus, p.2.currentCpus) := by
  unfold resizeCpus
  rw [if_neg hd]

theorem resizeFilter_pos_iff {delta : ℤ} (hd : 0 < delta)
    (tna : cpuTreeNodeAttributes) :
    (resizeFilter delta tna = true ↔ delta ≤ (tna.freeCpuCount : ℤ)) := by
  unfold resizeFilter
  split_ifs with h1 h2 <;> simp <;> omega

theorem resizeFilter_neg_iff {delta : ℤ} (hd : delta < 0)
    (tna : cpuTreeNodeAttributes) :
    (resizeFilter delta tna = true ↔ -delta ≤ (tna.currentCpuCount : ℤ)) := by
  unfold resizeFilter
  split_ifs with h1 h2 <;> simp <;> omega

/-- C10: for every tree, current set and free set, ResizeCpus with
delta = 0 succeeds and returns empty addFrom and removeFrom sets; the
zero delta is routed through the removal path, whose loop performs zero
iterations. -/
theorem ResizeCpus_zero_noop (topologyBalancing : Bool) (root : cpuTreeNode)
    (currentCpus freeCpus : Finset ℕ) :
    ResizeCpus topologyBalancing root currentCpus freeCpus 0 =
      Except.ok (∅, ∅) := by
  unfold ResizeCpus
  rw [if_neg (by omega)]
  rfl

/-- C3: the allocation comparator orders indexed descriptors by depth
first (strictly greater depth sorts smaller), then by the first index at
which the current-count vectors differ (the larger entry sorts smaller),
then by the first index at which the free-count vectors differ (the
larger entry sorts smaller when topologyBalancing is set, the smaller
entry sorts smaller otherwise). The winning descriptor of a growth
request is the least element under this comparator, which resizeCpus
selects via selectFirst. -/
theorem sorterAllocate_spec (topologyBalancing : Bool)
    (p q : ℕ × cpuTreeNodeAttributes) :
    (p.2.depth ≠ q.2.depth →
      sorterAllocate topologyBalancing p q = decide (q.2.depth < p.2.depth)) ∧
    (p.2.depth = q.2.depth →
      ∀ (pre : List ℕ) (x y : ℕ) (u v : List ℕ),
        p.2.currentCpuCounts = pre ++ x :: u →
        q.2.currentCpuCounts = pre ++ y :: v → x ≠ y →
        sorterAllocate topologyBalancing p q = decide (y < x)) ∧
    (p.2.depth = q.2.depth →
      p.2.currentCpuCounts = q.2.currentCpuCounts →
      ∀ (pre : List ℕ) (x y : ℕ) (u v : List ℕ),
        p.2.freeCpuCounts = pre ++ x :: u →
        q.2.freeCpuCounts = pre ++ y :: v → x ≠ y →
        sorterAllocate topologyBalancing p q =
          if topologyBalancing then decide (y < x) else decide (x < y)) := by
  refine ⟨?_, ?_, ?_⟩
  · intro h
    unfold sorterAllocate
    rw [if_pos h]
  · intro h pre x y u v hp hq hxy
    unfold sorterAllocate
    rw [if_neg (by simp [h]), hp, hq, lexDiff_append_ne pre u v hxy]
  · intro h hcc pre x y u v hp hq hxy
    unfold sorterAllocate
    rw [if_neg (by simp [h]), hcc, lexDiff_self, hp, hq,
      lexDiff_append_ne pre u v hxy]

def c3A : cpuTreeNodeAttributes := ⟨default, 2, ∅, ∅, 0, [5, 3, 2], 0, [4, 2, 1]⟩

def c3B : cpuTreeNodeAttributes := ⟨default, 1, ∅, ∅, 0, [5, 3], 0, [4, 2]⟩

def c3C : cpuTreeNodeAttributes := ⟨default, 2, ∅, ∅, 0, [5, 4, 2], 0, [4, 2, 1]⟩

def c3D : cpuTreeNodeAttributes := ⟨default, 2, ∅, ∅, 0, [5, 3, 2], 0, [4, 2, 1]⟩

def c3E : cpuTreeNodeAttributes := ⟨default, 2, ∅, ∅, 0, [5, 3, 2], 0, [4, 2, 1]⟩

def c3F : cpuTreeNodeAttributes := ⟨default, 2, ∅, ∅, 0, [5, 3, 2], 0, [4, 7, 1]⟩

theorem sorterAllocate_spec_witness :
    sorterAllocate true (0, c3A) (1, c3B) = true ∧
    sorterAllocate true (0, c3C) (1, c3D) = true ∧
    sorterAllocate false (0, c3E) (1, c3F) = true ∧
    sorterAllocate true (0, c3E) (1, c3F) = false := by
  refine ⟨?_, ?_, ?_, ?_⟩
  · rw [(sorterAllocate_spec true (0, c3A) (1, c3B)).1 (by decide)]
    decide
  · rw [(sorterAllocate_spec true (0, c3C) (1, c3D)).2.1 (by decide)
      [5] 4 3 [2] [2] rfl rfl (by decide)]
    decide
  · rw [(sorterAllocate_spec false (0, c3E) (1, c3F)).2.2 (by decide) rfl
      [4] 2 7 [1] [1] rfl rfl (by decide)]
    decide
  · rw [(sorterAllocate_spec true (0, c3E) (1, c3F)).2.2 (by decide) rfl
      [4] 2 7 [1] [1] rfl rfl (by decide)]
    decide

/-- C4: the release comparator orders indexed descriptors by depth first
(strictly greater depth sorts smaller), then by the first index at which
the current-count vectors differ (the smaller entry sorts smaller), then
by the first index at which the free-count vectors differ (the smaller
entry sorts smaller for both values of topologyBalancing: the two
branches of the flag in the source are the same rule). -/
theorem sorterRelease_spec (topologyBalancing : Bool)
    (p q : ℕ × cpuTreeNodeAttributes) :
    (p.2.depth ≠ q.2.depth →
      sorterRelease topologyBalancing p q = decide (q.2.depth < p.2.depth)) ∧
    (p.2.depth = q.2.depth →
      ∀ (pre : List ℕ) (x y : ℕ) (u v : List ℕ),
        p.2.currentCpuCounts = pre ++ x :: u →
        q.2.currentCpuCounts = pre ++ y :: v → x ≠ y →
        sorterRelease topologyBalancing p q = decide (x < y)) ∧
    (p.2.depth = q.2.depth →
      p.2.currentCpuCounts = q.2.currentCpuCounts →
      ∀ (pre : List ℕ) (x y : ℕ) (u v : List ℕ),
        p.2.freeCpuCounts = pre ++ x :: u →
        q.2.freeCpuCounts = pre ++ y :: v → x ≠ y →
        sorterRelease topologyBalancing p q = decide (x < y)) := by
  refine ⟨?_, ?_, ?_⟩
  · intro h
    unfold sorterRelease
    rw [if_pos h]
  · intro h pre x y u v hp hq hxy
    unfold sorterRelease
    rw [if_neg (by simp [h]), hp, hq, lexDiff_append_ne pre u v hxy]
  · intro h hcc pre x y u v hp hq hxy
    unfold sorterRelease
    rw [if_neg (by simp [h]), hcc, lexDiff_self, hp, hq,
      lexDiff_append_ne pre u v hxy]
    cases topologyBalancing <;> rfl

theorem sorterRelease_spec_witness :
    sorterRelease true (0, c3A) (1, c3B) = true ∧
    sorterRelease true (0, c3C) (1, c3D) = false ∧
    sorterRelease true (0, c3E) (1, c3F) = true ∧
    sorterRelease false (0, c3E) (1, c3F) = true := by
  refine ⟨?_, ?_, ?_, ?_⟩
  · rw [(sorterRelease_spec true (0, c3A) (1, c3B)).1 (by decide)]
    decide
  · rw [(sorterRelease_spec true (0, c3C) (1, c3D)).2.1 (by decide)
      [5] 4 3 [2] [2] rfl rfl (by decide)]
    decide
  · rw [(sorterRelease_spec true (0, c3E) (1, c3F)).2.2 (by decide) rfl
      [4] 2 7 [1] [1] rfl rfl (by decide)]
    decide
  · rw [(sorterRelease_spec false (0, c3E) (1, c3F)).2.2 (by decide) rfl
      [4] 2 7 [1] [1] rfl rfl (by decide)]
    decide

/-- C6 counterexample: a single-step release with no feasible node does
not fail with the message the claim names. On a one-node tree holding
CPU 0 with empty current and free sets, every node has current count 0,
no node passes the filter, and resizeCpus returns the single error
message of the source, which is the growth message and differs from the
claimed release message. -/
theorem resizeCpus_release_message_counterexample :
    resizeCpus true (.mk "cpu0" CPUTopologyLevelThread [] {0}) ∅ ∅ (-1) =
      Except.error "not enough free CPUs" ∧
    "not enough free CPUs" ≠ "not enough CPUs to release" := by
  constructor
  · decide
  · decide

/-- C6 (amended): for a single-step release with delta = -1, when no
node passes the filter (every node of the tree has current count below
one), the operation fails with the same error message as the growth
failure, namely the string the source uses for both directions. -/
theorem resizeCpus_release_no_survivor (topologyBalancing : Bool)
    (root : cpuTreeNode) (currentCpus freeCpus : Finset ℕ)
    (h : ∀ s ∈ descendants root, (s.cpus ∩ currentCpus).card < 1) :
    resizeCpus topologyBalancing root currentCpus freeCpus (-1) =
      Except.error "not enough free CPUs" := by
  rw [resizeCpus_nonpos_eq topologyBalancing root currentCpus freeCpus (by omega)]
  have hroot : resizeFilter (-1)
      (nodeAttributes root currentCpus freeCpus 0 [] []) = false := by
    have hc := h root (self_mem_descendants root)
    by_contra hne
    have htrue : resizeFilter (-1)
        (nodeAttributes root currentCpus freeCpus 0 [] []) = true := by
      revert hne
      cases resizeFilter (-1) (nodeAttributes root currentCpus freeCpus 0 [] [])
      · intro hne; exact absurd rfl hne
      · intro _; rfl
    rw [resizeFilter_neg_iff (by omega)] at htrue
    have : (nodeAttributes root currentCpus freeCpus 0 [] []).currentCpuCount =
        (root.cpus ∩ currentCpus).card := rfl
    rw [this] at htrue
    omega
  have hnil : root.ToAttributedSlice currentCpus freeCpus (resizeFilter (-1)) = [] := by
    unfold cpuTreeNode.ToAttributedSlice
    rw [toAttributedSlice_node_eq, hroot]
    simp
  rw [hnil]
  rfl

theorem resizeCpus_release_no_survivor_witness :
    resizeCpus true (.mk "cpu0" CPUTopologyLevelThread [] {0}) {5} {0} (-1) =
      Except.error "not enough free CPUs" :=
  resizeCpus_release_no_survivor true (.mk "cpu0" CPUTopologyLevelThread [] {0})
    {5} {0} (by decide)

theorem resizeCpus_ok_subsets {topologyBalancing : Bool} {root : cpuTreeNode}
    {currentCpus freeCpus : Finset ℕ} {delta : ℤ} {a r : Finset ℕ}
    (h : resizeCpus topologyBalancing root currentCpus freeCpus delta =
      Except.ok (a, r)) :
    a ⊆ freeCpus ∧ r ⊆ currentCpus := by
  by_cases hd : delta > 0
  · rw [resizeCpus_pos_eq topologyBalancing root currentCpus freeCpus hd] at h
    cases hw : selectFirst (sorterAllocate topologyBalancing)
        (withIdx 0 (root.ToAttributedSlice currentCpus freeCpus (resizeFilter delta))) with
    | none => rw [hw] at h; exact Except.noConfusion h
    | some p =>
      rw [hw] at h
      have hpair := Except.ok.inj h
      have hmem := (withIdx_mem_spec (selectFirst_mem _ hw)).2
      obtain ⟨_, _, hcur, hfree, _, _, _⟩ := ToAttributedSlice_mem_spec p.2 hmem
      have ha : a = p.2.freeCpus := (Prod.mk.injEq _ _ _ _ ▸ hpair).1.symm
      have hr : r = p.2.currentCpus := (Prod.mk.injEq _ _ _ _ ▸ hpair).2.symm
      rw [ha, hr, hcur, hfree]
      exact ⟨Finset.inter_subset_right, Finset.inter_subset_right⟩
  · rw [resizeCpus_nonpos_eq topologyBalancing root currentCpus freeCpus hd] at h
    cases hw : selectFirst (sorterRelease topologyBalancing)
        (withIdx 0 (root.ToAttributedSlice currentCpus freeCpus (resizeFilter delta))) with
    | none => rw [hw] at h; exact Except.noConfusion h
    | some p =>
      rw [hw] at h
      have hpair := Except.ok.inj h
      have hmem := (withIdx_mem_spec (selectFirst_mem _ hw)).2
      obtain ⟨_, _, hcur, hfree, _, _, _⟩ := ToAttributedSlice_mem_spec p.2 hmem
      have ha : a = p.2.freeCpus := (Prod.mk.injEq _ _ _ _ ▸ hpair).1.symm
      have hr : r = p.2.currentCpus := (Prod.mk.injEq _ _ _ _ ▸ hpair).2.symm
      rw [ha, hr, hcur, hfree]
      exact ⟨Finset.inter_subset_right, Finset.inter_subset_right⟩

theorem removeLoop_ok_spec (topologyBalancing : Bool) (root : cpuTreeNode) :
    ∀ (k n : ℕ) (currentCpus freeCpus removeFrom : Finset ℕ) (a r : Finset ℕ),
    removeFrom.card = n →
    removeLoop topologyBalancing root k n currentCpus freeCpus removeFrom =
      Except.ok (a, r) →
    a = ∅ ∧ r.card = n + k ∧ r ⊆ removeFrom ∪ currentCpus := by
  intro k
  induction k with
  | zero =>
    intro n currentCpus freeCpus removeFrom a r hcard h
    rw [removeLoop] at h
    have hpair := Except.ok.inj h
    have ha : a = ∅ := ((Prod.mk.injEq _ _ _ _ ▸ hpair).1).symm
    have hr : r = removeFrom := ((Prod.mk.injEq _ _ _ _ ▸ hpair).2).symm
    subst ha
    subst hr
    exact ⟨rfl, by omega, Finset.subset_union_left⟩
  | succ k ih =>
    intro n currentCpus freeCpus removeFrom a r hcard h
    rw [removeLoop] at h
    cases hw : resizeCpus topologyBalancing root currentCpus freeCpus (-1) with
    | error e => rw [hw] at h; exact Except.noConfusion h
    | ok res =>
      obtain ⟨a1, r1⟩ := res
      rw [hw] at h
      dsimp only at h
      by_cases hsz : r1.card ≠ 1
      · rw [if_pos hsz] at h
        exact Except.noConfusion h
      · rw [if_neg hsz] at h
        by_cases hdup : (removeFrom ∪ r1).card ≠ n + 1
        · rw [if_pos hdup] at h
          exact Except.noConfusion h
        · rw [if_neg hdup] at h
          have hcard' : (removeFrom ∪ r1).card = n + 1 := by omega
          obtain ⟨ha, hrcard, hrsub⟩ := ih (n + 1) (currentCpus \ r1)
            (freeCpus ∪ r1) (removeFrom ∪ r1) a r hcard' h
          refine ⟨ha, by omega, ?_⟩
          have hr1 : r1 ⊆ currentCpus := (resizeCpus_ok_subsets hw).2
          refine hrsub.trans ?_
          intro z hz
          rcases Finset.mem_union.mp hz with hz | hz
          · rcases Finset.mem_union.mp hz with hz | hz
            · exact Finset.mem_union_left _ hz
            · exact Finset.mem_union_right _ (hr1 hz)
          · exact Finset.mem_union_right _ (Finset.mem_sdiff.mp hz).1

/-- C2: for delta below zero, ResizeCpus runs the removal path, which
decomposes the shrink into natAbs delta single-CPU releases with the
chosen CPU moved from the current set to the free set between steps, and
on success returns an empty addFrom set together with a removeFrom set
of exactly natAbs delta distinct CPUs, all drawn from the original
current set. -/
theorem ResizeCpus_shrink_spec (topologyBalancing : Bool) (root : cpuTreeNode)
    (currentCpus freeCpus : Finset ℕ) (delta : ℤ)
    (hd : delta < 0) (hcard : delta.natAbs ≤ currentCpus.card) :
    ResizeCpus topologyBalancing root currentCpus freeCpus delta =
      removeLoop topologyBalancing root delta.natAbs 0 currentCpus freeCpus ∅ ∧
    ∀ a r, ResizeCpus topologyBalancing root currentCpus freeCpus delta =
        Except.ok (a, r) →
      a = ∅ ∧ r.card = delta.natAbs ∧ r ⊆ currentCpus := by
  have h1 : ResizeCpus topologyBalancing root currentCpus freeCpus delta =
      removeLoop topologyBalancing root delta.natAbs 0 currentCpus freeCpus ∅ := by
    unfold ResizeCpus
    rw [if_neg (by omega)]
  refine ⟨h1, ?_⟩
  intro a r h
  rw [h1] at h
  obtain ⟨ha, hrcard, hrsub⟩ := removeLoop_ok_spec topologyBalancing root
    delta.natAbs 0 currentCpus freeCpus ∅ a r (Finset.card_empty) h
  refine ⟨ha, by omega, ?_⟩
  rw [Finset.empty_union] at hrsub
  exact hrsub

def c2Tree : cpuTreeNode :=
  .mk "r" CPUTopologyLevelSystem
    [.mk "a" CPUTopologyLevelThread [] {0}, .mk "b" CPUTopologyLevelThread [] {1}]
    {0, 1}

theorem ResizeCpus_shrink_spec_witness :
    ResizeCpus true c2Tree {0, 1} ∅ (-2) = Except.ok (∅, {0, 1}) ∧
    (∅ : Finset ℕ) = ∅ ∧ ({0, 1} : Finset ℕ).card = (-2 : ℤ).natAbs ∧
    ({0, 1} : Finset ℕ) ⊆ {0, 1} := by
  refine ⟨by decide, ?_⟩
  exact (ResizeCpus_shrink_spec true c2Tree {0, 1} ∅ (-2) (by decide)
    (by decide)).2 ∅ {0, 1} (by decide)

/-- C8: in the multi-CPU release loop, a single-step result of size
other than one makes the next iteration return an internal error whose
message contains the text about failing to find a single cpu, and a
single-step result whose CPU is already in the removeFrom accumulator
makes it return an internal error whose message contains the text about
a double release; both errors are returned immediately with no retry,
and for negative delta ResizeCpus is exactly this loop, so the error
reaches the caller unchanged. -/
theorem removeLoop_internal_errors (topologyBalancing : Bool) (root : cpuTreeNode)
    (k n : ℕ) (currentCpus freeCpus removeFrom : Finset ℕ) :
    (∀ a1 r1, resizeCpus topologyBalancing root currentCpus freeCpus (-1) =
        Except.ok (a1, r1) →
      (r1.card ≠ 1 →
        ∃ msg, removeLoop topologyBalancing root (k + 1) n currentCpus freeCpus
            removeFrom = Except.error msg ∧
          ∃ pre post, msg = pre ++ "failed to find single cpu" ++ post) ∧
      (r1.card = 1 → (removeFrom ∪ r1).card ≠ n + 1 →
        ∃ msg, removeLoop topologyBalancing root (k + 1) n currentCpus freeCpus
            removeFrom = Except.error msg ∧
          ∃ pre post, msg = pre ++ "double release of a cpu" ++ post)) ∧
    (∀ delta : ℤ, delta < 0 →
      ResizeCpus topologyBalancing root currentCpus freeCpus delta =
        removeLoop topologyBalancing root delta.natAbs 0 currentCpus freeCpus ∅) := by
  constructor
  · intro a1 r1 hw
    constructor
    · intro hsz
      refine ⟨"internal error: failed to find single cpu to free, currentCpus=" ++
        cpusetString currentCpus ++ " freeCpus=" ++ cpusetString freeCpus ++
        " expectedSingle=" ++ cpusetString r1, ?_, ?_⟩
      · rw [removeLoop, hw]
        dsimp only
        rw [if_pos hsz]
      · refine ⟨"internal error: ",
          " to free, currentCpus=" ++ cpusetString currentCpus ++ " freeCpus=" ++
            cpusetString freeCpus ++ " expectedSingle=" ++ cpusetString r1, ?_⟩
        have hlit : ("internal error: failed to find single cpu to free, currentCpus=" : String) =
            "internal error: " ++ ("failed to find single cpu" ++ " to free, currentCpus=") := by
          decide
        simp only [String.append_assoc]
        rw [hlit]
        simp only [String.append_assoc]
    · intro hsz hdup
      refine ⟨"internal error: double release of a cpu, currentCpus=" ++
        cpusetString currentCpus ++ " freeCpus=" ++ cpusetString freeCpus ++
        " alreadyRemoved=" ++ cpusetString removeFrom ++ " removedNow=" ++
        cpusetString r1, ?_, ?_⟩
      · rw [removeLoop, hw]
        dsimp only
        rw [if_neg (by simp [hsz]), if_pos hdup]
      · refine ⟨"internal error: ",
          ", currentCpus=" ++ cpusetString currentCpus ++ " freeCpus=" ++
            cpusetString freeCpus ++ " alreadyRemoved=" ++ cpusetString removeFrom ++
            " removedNow=" ++ cpusetString r1, ?_⟩
        have hlit : ("internal error: double release of a cpu, currentCpus=" : String) =
            "internal error: " ++ ("double release of a cpu" ++ ", currentCpus=") := by
          decide
        simp only [String.append_assoc]
        rw [hlit]
        simp only [String.append_assoc]
  · intro delta hdelta
    unfold ResizeCpus
    rw [if_neg (by omega)]

def c8TreeA : cpuTreeNode := .mk "r" CPUTopologyLevelSystem [] {0, 1}

def c8TreeB : cpuTreeNode := .mk "r" CPUTopologyLevelSystem [] {0}

theorem removeLoop_internal_errors_witness :
    (∃ msg, removeLoop true c8TreeA 1 0 {0, 1} ∅ ∅ = Except.error msg ∧
      ∃ pre post, msg = pre ++ "failed to find single cpu" ++ post) ∧
    (∃ msg, removeLoop true c8TreeB 1 1 {0} ∅ {0} = Except.error msg ∧
      ∃ pre post, msg = pre ++ "double release of a cpu" ++ post) ∧
    ResizeCpus true c8TreeA {0, 1} ∅ (-2) = removeLoop true c8TreeA 2 0 {0, 1} ∅ ∅ := by
  refine ⟨?_, ?_, ?_⟩
  · exact ((removeLoop_internal_errors true c8TreeA 0 0 {0, 1} ∅ ∅).1 ∅ {0, 1}
      (by decide)).1 (by decide)
  · exact ((removeLoop_internal_errors true c8TreeB 0 1 {0} ∅ {0}).1 ∅ {0}
      (by decide)).2 (by decide) (by decide)
  · exact (removeLoop_internal_errors true c8TreeA 0 0 {0, 1} ∅ ∅).2 (-2) (by decide)

theorem withIdx_eq_nil {α : Type} {i : ℕ} {l : List α} :
    withIdx i l = [] ↔ l = [] := by
  cases l with
  | nil => simp [withIdx]
  | cons a as => rw [withIdx_cons]; simp

/-- C1 (amended): for a growth request on a well-formed topology tree
with disjoint current and free sets, if some node of the tree covers at
least delta free CPUs then resizeCpus succeeds and returns the freeCpus
and currentCpus intersections of a surviving descriptor that no
surviving descriptor beats on the comparator's value keys (depth, then
the count vectors), with at least delta CPUs in addFrom, addFrom inside
the free set and removeFrom inside the current set; and if no node
passes the filter (free count at least delta nowhere), it fails with
the error message about not enough free CPUs. Which of several fully
tied key-minimal descriptors supplies the result is decided by the
position comparisons inside the runtime's unstable sort (the model
resolves the tie over emission indices; the counterexample shows the
runtime picking a different tied descriptor). -/
theorem resizeCpus_grow_spec (topologyBalancing : Bool) (root : cpuTreeNode)
    (currentCpus freeCpus : Finset ℕ) (delta : ℤ)
    (hdisj : currentCpus ∩ freeCpus = ∅) (hd : 0 < delta)
    (hwf : cpusWellFormed root) :
    ((∀ s ∈ descendants root, ((s.cpus ∩ freeCpus).card : ℤ) < delta) →
      resizeCpus topologyBalancing root currentCpus freeCpus delta =
        Except.error "not enough free CPUs") ∧
    ((∃ s ∈ descendants root, delta ≤ ((s.cpus ∩ freeCpus).card : ℤ)) →
      ∃ p ∈ withIdx 0 (root.ToAttributedSlice currentCpus freeCpus (resizeFilter delta)),
        resizeCpus topologyBalancing root currentCpus freeCpus delta =
          Except.ok (p.2.freeCpus, p.2.currentCpus) ∧
        (∀ q ∈ root.ToAttributedSlice currentCpus freeCpus (resizeFilter delta),
          tnaKeyLess true topologyBalancing q p.2 = false) ∧
        p.2.freeCpus = p.2.t.cpus ∩ freeCpus ∧
        p.2.currentCpus = p.2.t.cpus ∩ currentCpus ∧
        delta ≤ (p.2.freeCpus.card : ℤ) ∧
        p.2.freeCpus ⊆ freeCpus ∧ p.2.currentCpus ⊆ currentCpus) := by
  constructor
  · intro h
    rw [resizeCpus_pos_eq topologyBalancing root currentCpus freeCpus hd]
    have hnil : root.ToAttributedSlice currentCpus freeCpus (resizeFilter delta) = [] := by
      cases hsl : root.ToAttributedSlice currentCpus freeCpus (resizeFilter delta) with
      | nil => rfl
      | cons a rest =>
        exfalso
        have ha : a ∈ root.ToAttributedSlice currentCpus freeCpus (resizeFilter delta) := by
          rw [hsl]; exact List.mem_cons_self _ _
        obtain ⟨hdesc, hfilt, _, _, _, hfcount, _⟩ := ToAttributedSlice_mem_spec a ha
        have := (resizeFilter_pos_iff hd a).mp hfilt
        rw [hfcount] at this
        have := h a.t hdesc
        omega
    rw [hnil]
    rfl
  · rintro ⟨s, hs, hcount⟩
    have hsub := descendants_cpus_subset hwf s hs
    have hcard : (s.cpus ∩ freeCpus).card ≤ (root.cpus ∩ freeCpus).card :=
      Finset.card_le_card (Finset.inter_subset_inter hsub (Finset.Subset.refl _))
    have hroot : resizeFilter delta
        (nodeAttributes root currentCpus freeCpus 0 [] []) = true := by
      rw [resizeFilter_pos_iff hd]
      have : (nodeAttributes root currentCpus freeCpus 0 [] []).freeCpuCount =
          (root.cpus ∩ freeCpus).card := rfl
      rw [this]
      omega
    have hslice : root.ToAttributedSlice currentCpus freeCpus (resizeFilter delta) ≠ [] := by
      unfold cpuTreeNode.ToAttributedSlice
      rw [toAttributedSlice_node_eq, if_pos hroot]
      simp
    obtain ⟨m, hm⟩ : ∃ m, selectFirst (sorterAllocate topologyBalancing)
        (withIdx 0 (root.ToAttributedSlice currentCpus freeCpus (resizeFilter delta))) =
          some m := by
      cases hsel : selectFirst (sorterAllocate topologyBalancing)
          (withIdx 0 (root.ToAttributedSlice currentCpus freeCpus (resizeFilter delta))) with
      | none =>
        rw [selectFirst_eq_none, withIdx_eq_nil] at hsel
        exact absurd hsel hslice
      | some m => exact ⟨m, rfl⟩
    have hlen : ∀ a ∈ root.ToAttributedSlice currentCpus freeCpus (resizeFilter delta),
        vecLengthsOK a :=
      fun a ha => (ToAttributedSlice_mem_spec a ha).2.2.2.2.2.2
    have htot : ∀ p ∈ withIdx 0 (root.ToAttributedSlice currentCpus freeCpus (resizeFilter delta)),
        ∀ q ∈ withIdx 0 (root.ToAttributedSlice currentCpus freeCpus (resizeFilter delta)),
        p ≠ q → sorterAllocate topologyBalancing p q = true ∨
          sorterAllocate topologyBalancing q p = true := by
      intro p hp q hq hne
      rw [sorterAllocate_eq_tnaLess, sorterAllocate_eq_tnaLess]
      exact withIdx_tnaLess_total true topologyBalancing true _ p hp q hq hne
    have htrans : ∀ p ∈ withIdx 0 (root.ToAttributedSlice currentCpus freeCpus (resizeFilter delta)),
        ∀ q ∈ withIdx 0 (root.ToAttributedSlice currentCpus freeCpus (resizeFilter delta)),
        ∀ r ∈ withIdx 0 (root.ToAttributedSlice currentCpus freeCpus (resizeFilter delta)),
        sorterAllocate topologyBalancing p q = true →
        sorterAllocate topologyBalancing q r = true →
        sorterAllocate topologyBalancing p r = true := by
      intro p hp q hq r hr h1 h2
      rw [sorterAllocate_eq_tnaLess] at h1 h2 ⊢
      exact withIdx_tnaLess_trans true topologyBalancing true hlen p hp q hq r hr h1 h2
    obtain ⟨hmmem, hleast⟩ := selectFirst_spec (sorterAllocate topologyBalancing)
      hm htot htrans
    obtain ⟨_, hfilt, hcur, hfree, _, hfcount, _⟩ :=
      ToAttributedSlice_mem_spec m.2 (withIdx_mem_spec hmmem).2
    have hok : resizeCpus topologyBalancing root currentCpus freeCpus delta =
        Except.ok (m.2.freeCpus, m.2.currentCpus) := by
      rw [resizeCpus_pos_eq topologyBalancing root currentCpus freeCpus hd, hm]
    have hge := (resizeFilter_pos_iff hd m.2).mp hfilt
    rw [hfcount] at hge
    have hkey : ∀ q ∈ root.ToAttributedSlice currentCpus freeCpus (resizeFilter delta),
        tnaKeyLess true topologyBalancing q m.2 = false := by
      intro q hq
      obtain ⟨jq, hjq⟩ := withIdx_exists_of_mem 0 hq
      by_cases hqm : (jq, q) = m
      · have hq2 : q = m.2 := by rw [← hqm]
        rw [hq2]
        exact tnaKeyLess_irrefl _ _ _
      · have hlt := hleast (jq, q) hjq hqm
        rw [sorterAllocate_eq_tnaLess] at hlt
        cases hk : tnaKeyLess true topologyBalancing q m.2
        · rfl
        · exact (tnaLess_asymm true topologyBalancing true
            (hlen m.2 (withIdx_mem_spec hmmem).2) (hlen q hq) hlt
            (tnaKeyLess_tnaLess true topologyBalancing true hk jq m.1)).elim
    refine ⟨m, hmmem, hok, hkey, hfree, hcur, ?_, ?_, ?_⟩
    · rw [hfree]
      exact_mod_cast hge
    · rw [hfree]
      exact Finset.inter_subset_right
    · rw [hcur]
      exact Finset.inter_subset_right

def c1Tree : cpuTreeNode :=
  .mk "r" CPUTopologyLevelSystem
    [.mk "a" CPUTopologyLevelThread [] {0}, .mk "b" CPUTopologyLevelThread [] {1}]
    {0, 1}

theorem resizeCpus_grow_spec_witness :
    ∃ p ∈ withIdx 0 (c1Tree.ToAttributedSlice ∅ {0, 1} (resizeFilter 1)),
      resizeCpus true c1Tree ∅ {0, 1} 1 = Except.ok (p.2.freeCpus, p.2.currentCpus) ∧
      (∀ q ∈ c1Tree.ToAttributedSlice ∅ {0, 1} (resizeFilter 1),
        tnaKeyLess true true q p.2 = false) ∧
      p.2.freeCpus = p.2.t.cpus ∩ {0, 1} ∧
      p.2.currentCpus = p.2.t.cpus ∩ ∅ ∧
      (1 : ℤ) ≤ (p.2.freeCpus.card : ℤ) ∧
      p.2.freeCpus ⊆ {0, 1} ∧ p.2.currentCpus ⊆ ∅ :=
  (resizeCpus_grow_spec true c1Tree ∅ {0, 1} 1 (by decide) (by decide)
    (by decide)).2 ⟨c1Tree, self_mem_descendants c1Tree, by decide⟩

/-- A 2 packages x 2 dies x 2 NUMA nodes x 2 cores x 2 threads machine
with CPUs 0..31 assigned in pre-order, and a flat machine of a root
with twelve two-CPU children: concrete topologies for exercising the
runtime sort on fully tied descriptors. -/
def gexThread (i : ℕ) : cpuTreeNode :=
  .mk "thread" CPUTopologyLevelThread [] {i}

def gexCore (k : ℕ) : cpuTreeNode :=
  .mk "core" CPUTopologyLevelCore
    [gexThread (2 * k), gexThread (2 * k + 1)] {2 * k, 2 * k + 1}

def gexNuma (m : ℕ) : cpuTreeNode :=
  .mk "numa" CPUTopologyLevelNuma
    [gexCore (2 * m), gexCore (2 * m + 1)]
    ((Finset.range 4).image (fun x => 4 * m + x))

def gexDie (d : ℕ) : cpuTreeNode :=
  .mk "die" CPUTopologyLevelDie
    [gexNuma (2 * d), gexNuma (2 * d + 1)]
    ((Finset.range 8).image (fun x => 8 * d + x))

def gexPackage (p : ℕ) : cpuTreeNode :=
  .mk "package" CPUTopologyLevelPackage
    [gexDie (2 * p), gexDie (2 * p + 1)]
    ((Finset.range 16).image (fun x => 16 * p + x))

def gexSystem : cpuTreeNode :=
  .mk "system" CPUTopologyLevelSystem [gexPackage 0, gexPackage 1]
    (Finset.range 32)

def gexLeaf (k : ℕ) : cpuTreeNode :=
  .mk "leaf" CPUTopologyLevelCore [] {2 * k, 2 * k + 1}

def gexFlat : cpuTreeNode :=
  .mk "flat" CPUTopologyLevelSystem ((List.range 12).map gexLeaf)
    (Finset.range 24)

set_option maxRecDepth 10000 in
/-- C1 counterexample: growing by two on the 2x2x2x2x2 machine with all
32 CPUs free fully ties all sixteen cores on depth and both count
vectors. The comparator-minimal descriptor of the emission-index
reading is the last core, holding CPUs 30-31 (second and third
conjuncts), but the runtime sort of Go 1.19+ leaves the core holding
CPUs 8-9 at position 0, so the program returns ({8,9}, {}) - resizeCpus
does not return the intersections of the comparator-minimal surviving
descriptor. -/
theorem resizeCpus_grow_tie_counterexample :
    resizeCpusGo false gexSystem ∅ (Finset.range 32) 2 =
      Except.ok ({8, 9}, ∅) ∧
    resizeCpus false gexSystem ∅ (Finset.range 32) 2 =
      Except.ok ({30, 31}, ∅) ∧
    ((selectFirst (sorterAllocate false)
        (withIdx 0 (gexSystem.ToAttributedSlice ∅ (Finset.range 32)
          (resizeFilter 2)))).getD (0, default)).2.freeCpus = {30, 31} ∧
    (let ta := gexSystem.ToAttributedSlice ∅ (Finset.range 32) (resizeFilter 2)
     ta.length = 31 ∧
     (ta.getD 11 default).depth = (ta.getD 30 default).depth ∧
     (ta.getD 11 default).currentCpuCounts = (ta.getD 30 default).currentCpuCounts ∧
     (ta.getD 11 default).freeCpuCounts = (ta.getD 30 default).freeCpuCounts ∧
     (ta.getD 11 default).freeCpus = {8, 9} ∧
     (ta.getD 30 default).freeCpus = {30, 31}) ∧
    ({8, 9} : Finset ℕ) ≠ {30, 31} :=
  ⟨by decide, by decide, by decide, by decide, by decide⟩

/-- C5: the attribution pass emits descriptors in depth-first pre-order.
At every recursion level (incoming vectors of length equal to the
depth): every emitted descriptor passed the filter, belongs to a node of
the subtree, carries the intersections with the current and free sets
and their cardinalities, and its count vectors have length depth+1 and
are the parent vectors extended by the counts of the node; when the
filter rejects the descriptor of the node, nothing is emitted for the
node or its subtree; when it accepts, the descriptor of the node is
emitted first and everything after it comes from strict descendants at
strictly greater depth whose vectors agree with the vectors of the node
on the prefix of length depth+1. -/
theorem toAttributedSlice_spec (currentCpus freeCpus : Finset ℕ)
    (filter : cpuTreeNodeAttributes → Bool) (t : cpuTreeNode) (d : ℕ)
    (ccs fcs : List ℕ) (hccs : ccs.length = d) (hfcs : fcs.length = d) :
    (∀ a ∈ toAttributedSlice currentCpus freeCpus filter t d ccs fcs,
      filter a = true ∧ a.t ∈ descendants t ∧
      a.currentCpus = a.t.cpus ∩ currentCpus ∧
      a.freeCpus = a.t.cpus ∩ freeCpus ∧
      a.currentCpuCount = (a.t.cpus ∩ currentCpus).card ∧
      a.freeCpuCount = (a.t.cpus ∩ freeCpus).card ∧
      a.currentCpuCounts.length = a.depth + 1 ∧
      a.freeCpuCounts.length = a.depth + 1 ∧
      (∃ pcc, a.currentCpuCounts = pcc ++ [a.currentCpuCount] ∧
        pcc.length = a.depth) ∧
      (∃ pfc, a.freeCpuCounts = pfc ++ [a.freeCpuCount] ∧ pfc.length = a.depth)) ∧
    (filter (nodeAttributes t currentCpus freeCpus d ccs fcs) = false →
      toAttributedSlice currentCpus freeCpus filter t d ccs fcs = []) ∧
    (filter (nodeAttributes t currentCpus freeCpus d ccs fcs) = true →
      ∃ rest, toAttributedSlice currentCpus freeCpus filter t d ccs fcs =
          nodeAttributes t currentCpus freeCpus d ccs fcs :: rest ∧
        ∀ b ∈ rest, (∃ c ∈ t.children, b.t ∈ descendants c) ∧ d < b.depth ∧
          b.currentCpuCounts.take (d + 1) =
            (nodeAttributes t currentCpus freeCpus d ccs fcs).currentCpuCounts ∧
          b.freeCpuCounts.take (d + 1) =
            (nodeAttributes t currentCpus freeCpus d ccs fcs).freeCpuCounts) := by
  refine ⟨?_, ?_, ?_⟩
  · intro a ha
    obtain ⟨h1, h2, _, h4, h5, h6, h7, h8, h9, _, _, h12, h13⟩ :=
      toAttributedSlice_mem_spec currentCpus freeCpus filter t d ccs fcs
        hccs hfcs a ha
    exact ⟨h2, h1, h4, h5, h6, h7, h8, h9, h12, h13⟩
  · intro hf
    rw [toAttributedSlice_node_eq, if_neg (by simp [hf])]
  · intro hf
    rw [toAttributedSlice_node_eq, if_pos hf]
    refine ⟨_, rfl, ?_⟩
    intro b hb
    rcases toAttributedSliceList_mem hb with ⟨c, hc, hbc⟩
    have hcc1 : (ccs ++ [(t.cpus ∩ currentCpus).card]).length = d + 1 := by
      simp [hccs]
    have hfc1 : (fcs ++ [(t.cpus ∩ freeCpus).card]).length = d + 1 := by
      simp [hfcs]
    obtain ⟨hb1, _, hb3, _, _, _, _, _, _, hb10, hb11, _, _⟩ :=
      toAttributedSlice_mem_spec currentCpus freeCpus filter c (d + 1) _ _
        hcc1 hfc1 b hbc
    refine ⟨⟨c, hc, hb1⟩, by omega, ?_, ?_⟩
    · rw [hb10]
      rfl
    · rw [hb11]
      rfl

def c5Tree : cpuTreeNode :=
  .mk "r" CPUTopologyLevelSystem
    [.mk "a" CPUTopologyLevelThread [] {0}, .mk "b" CPUTopologyLevelThread [] {1}]
    {0, 1}

theorem toAttributedSlice_spec_witness :
    ∃ rest, toAttributedSlice {0} {1} (resizeFilter (-1)) c5Tree 0 [] [] =
        nodeAttributes c5Tree {0} {1} 0 [] [] :: rest ∧
      ∀ b ∈ rest, (∃ c ∈ c5Tree.children, b.t ∈ descendants c) ∧ 0 < b.depth ∧
        b.currentCpuCounts.take 1 =
          (nodeAttributes c5Tree {0} {1} 0 [] []).currentCpuCounts ∧
        b.freeCpuCounts.take 1 =
          (nodeAttributes c5Tree {0} {1} 0 [] []).freeCpuCounts :=
  (toAttributedSlice_spec {0} {1} (resizeFilter (-1)) c5Tree 0 [] []
    rfl rfl).2.2 (by decide)

theorem option_isSome_getD {α : Type} (o : Option α) (d : α)
    (h : o.isSome = true) : o = some (o.getD d) := by
  cases o with
  | none => simp at h
  | some a => rfl

/-- C7 (amended): ResizeCpus is deterministic - it is a function of the
tree, options, current set, free set and delta, so identical inputs
give identical result sets (the runtime sort is itself deterministic) -
and the comparator's value keys determine the winner only up to full
ties: for either direction, the descriptor the selection yields is
never beaten on (depth, current counts, free counts) by any surviving
descriptor. Which fully tied descriptor wins is decided by the
in-flight position comparisons of the runtime's unstable sort, which
the source does not fix: allocation does not in general pick the
latest-emitted tied descriptor, nor release the earliest-emitted (see
the counterexample). -/
theorem ResizeCpus_deterministic (topologyBalancing : Bool) (root : cpuTreeNode)
    (currentCpus freeCpus currentCpus' freeCpus' : Finset ℕ) (delta delta' : ℤ)
    (hcur : currentCpus = currentCpus') (hfree : freeCpus = freeCpus')
    (hdelta : delta = delta') :
    ResizeCpus topologyBalancing root currentCpus freeCpus delta =
      ResizeCpus topologyBalancing root currentCpus' freeCpus' delta' ∧
    (∀ p, selectFirst (sorterAllocate topologyBalancing)
        (withIdx 0 (root.ToAttributedSlice currentCpus freeCpus (resizeFilter delta))) =
          some p →
      ∀ q ∈ root.ToAttributedSlice currentCpus freeCpus (resizeFilter delta),
        tnaKeyLess true topologyBalancing q p.2 = false) ∧
    (∀ p, selectFirst (sorterRelease topologyBalancing)
        (withIdx 0 (root.ToAttributedSlice currentCpus freeCpus (resizeFilter delta))) =
          some p →
      ∀ q ∈ root.ToAttributedSlice currentCpus freeCpus (resizeFilter delta),
        tnaKeyLess false false q p.2 = false) := by
  subst hcur
  subst hfree
  subst hdelta
  have hlen : ∀ a ∈ root.ToAttributedSlice currentCpus freeCpus (resizeFilter delta),
      vecLengthsOK a :=
    fun a ha => (ToAttributedSlice_mem_spec a ha).2.2.2.2.2.2
  refine ⟨rfl, ?_, ?_⟩
  · intro p hp q hq
    have htot : ∀ x ∈ withIdx 0 (root.ToAttributedSlice currentCpus freeCpus (resizeFilter delta)),
        ∀ y ∈ withIdx 0 (root.ToAttributedSlice currentCpus freeCpus (resizeFilter delta)),
        x ≠ y → sorterAllocate topologyBalancing x y = true ∨
          sorterAllocate topologyBalancing y x = true := by
      intro x hx y hy hxy
      rw [sorterAllocate_eq_tnaLess, sorterAllocate_eq_tnaLess]
      exact withIdx_tnaLess_total true topologyBalancing true _ x hx y hy hxy
    have htrans : ∀ x ∈ withIdx 0 (root.ToAttributedSlice currentCpus freeCpus (resizeFilter delta)),
        ∀ y ∈ withIdx 0 (root.ToAttributedSlice currentCpus freeCpus (resizeFilter delta)),
        ∀ z ∈ withIdx 0 (root.ToAttributedSlice currentCpus freeCpus (resizeFilter delta)),
        sorterAllocate topologyBalancing x y = true →
        sorterAllocate topologyBalancing y z = true →
        sorterAllocate topologyBalancing x z = true := by
      intro x hx y hy z hz h1 h2
      rw [sorterAllocate_eq_tnaLess] at h1 h2 ⊢
      exact withIdx_tnaLess_trans true topologyBalancing true hlen x hx y hy z hz h1 h2
    obtain ⟨hpmem, hleast⟩ := selectFirst_spec (sorterAllocate topologyBalancing) hp htot htrans
    obtain ⟨jq, hjq⟩ := withIdx_exists_of_mem 0 hq
    by_cases hqm : (jq, q) = p
    · have hq2 : q = p.2 := by rw [← hqm]
      rw [hq2]
      exact tnaKeyLess_irrefl _ _ _
    · have hlt := hleast (jq, q) hjq hqm
      rw [sorterAllocate_eq_tnaLess] at hlt
      cases hk : tnaKeyLess true topologyBalancing q p.2
      · rfl
      · exact (tnaLess_asymm true topologyBalancing true
          (hlen p.2 (withIdx_mem_spec hpmem).2) (hlen q hq) hlt
          (tnaKeyLess_tnaLess true topologyBalancing true hk jq p.1)).elim
  · intro p hp q hq
    have htot : ∀ x ∈ withIdx 0 (root.ToAttributedSlice currentCpus freeCpus (resizeFilter delta)),
        ∀ y ∈ withIdx 0 (root.ToAttributedSlice currentCpus freeCpus (resizeFilter delta)),
        x ≠ y → sorterRelease topologyBalancing x y = true ∨
          sorterRelease topologyBalancing y x = true := by
      intro x hx y hy hxy
      rw [sorterRelease_eq_tnaLess, sorterRelease_eq_tnaLess]
      exact withIdx_tnaLess_total false false false _ x hx y hy hxy
    have htrans : ∀ x ∈ withIdx 0 (root.ToAttributedSlice currentCpus freeCpus (resizeFilter delta)),
        ∀ y ∈ withIdx 0 (root.ToAttributedSlice currentCpus freeCpus (resizeFilter delta)),
        ∀ z ∈ withIdx 0 (root.ToAttributedSlice currentCpus freeCpus (resizeFilter delta)),
        sorterRelease topologyBalancing x y = true →
        sorterRelease topologyBalancing y z = true →
        sorterRelease topologyBalancing x z = true := by
      intro x hx y hy z hz h1 h2
      rw [sorterRelease_eq_tnaLess] at h1 h2 ⊢
      exact withIdx_tnaLess_trans false false false hlen x hx y hy z hz h1 h2
    obtain ⟨hpmem, hleast⟩ := selectFirst_spec (sorterRelease topologyBalancing) hp htot htrans
    obtain ⟨jq, hjq⟩ := withIdx_exists_of_mem 0 hq
    by_cases hqm : (jq, q) = p
    · have hq2 : q = p.2 := by rw [← hqm]
      rw [hq2]
      exact tnaKeyLess_irrefl _ _ _
    · have hlt := hleast (jq, q) hjq hqm
      rw [sorterRelease_eq_tnaLess] at hlt
      cases hk : tnaKeyLess false false q p.2
      · rfl
      · exact (tnaLess_asymm false false false
          (hlen p.2 (withIdx_mem_spec hpmem).2) (hlen q hq) hlt
          (tnaKeyLess_tnaLess false false false hk jq p.1)).elim

def c7Tree : cpuTreeNode :=
  .mk "r" CPUTopologyLevelSystem
    [.mk "a" CPUTopologyLevelThread [] {0}, .mk "b" CPUTopologyLevelThread [] {1}]
    {0, 1}

def c7SliceA : List (ℕ × cpuTreeNodeAttributes) :=
  withIdx 0 (c7Tree.ToAttributedSlice ∅ {0, 1} (resizeFilter 1))

def c7PickA : ℕ × cpuTreeNodeAttributes :=
  (selectFirst (sorterAllocate true) c7SliceA).getD (0, default)

def c7SliceR : List (ℕ × cpuTreeNodeAttributes) :=
  withIdx 0 (c7Tree.ToAttributedSlice {0, 1} ∅ (resizeFilter (-1)))

def c7PickR : ℕ × cpuTreeNodeAttributes :=
  (selectFirst (sorterRelease true) c7SliceR).getD (0, default)

theorem c7PickA_eq : selectFirst (sorterAllocate true) c7SliceA = some c7PickA :=
  option_isSome_getD _ _ (by decide)

theorem c7PickR_eq : selectFirst (sorterRelease true) c7SliceR = some c7PickR :=
  option_isSome_getD _ _ (by decide)

theorem ResizeCpus_deterministic_witness :
    (∀ q ∈ c7Tree.ToAttributedSlice ∅ {0, 1} (resizeFilter 1),
      tnaKeyLess true true q c7PickA.2 = false) ∧
    (∀ q ∈ c7Tree.ToAttributedSlice {0, 1} ∅ (resizeFilter (-1)),
      tnaKeyLess false false q c7PickR.2 = false) :=
  ⟨(ResizeCpus_deterministic true c7Tree ∅ {0, 1} ∅ {0, 1} 1 1
      rfl rfl rfl).2.1 c7PickA c7PickA_eq,
   (ResizeCpus_deterministic true c7Tree {0, 1} ∅ {0, 1} ∅ (-1) (-1)
      rfl rfl rfl).2.2 c7PickR c7PickR_eq⟩

set_option maxRecDepth 10000 in
/-- C7 counterexample: under the runtime sort the winner of a full tie
is neither the latest-emitted tied descriptor for allocation nor the
earliest-emitted for release. Growing by two on the flat machine
(thirteen surviving descriptors) returns the leaf holding CPUs 18-19,
emitted tenth, although the leaf holding CPUs 22-23, emitted twelfth,
ties it on depth and both count vectors; releasing one of 32 held CPUs
on the 2x2x2x2x2 machine (sixty-three surviving descriptors) returns
the thread holding CPU 15, emitted thirty-first, although the thread
holding CPU 0, emitted fifth, ties it likewise. -/
theorem ResizeCpus_tiebreak_counterexample :
    resizeCpusGo false gexFlat ∅ (Finset.range 24) 2 =
      Except.ok ({18, 19}, ∅) ∧
    (let tn := gexFlat.ToAttributedSlice ∅ (Finset.range 24) (resizeFilter 2)
     tn.length = 13 ∧
     (tn.getD 10 default).depth = (tn.getD 12 default).depth ∧
     (tn.getD 10 default).currentCpuCounts = (tn.getD 12 default).currentCpuCounts ∧
     (tn.getD 10 default).freeCpuCounts = (tn.getD 12 default).freeCpuCounts ∧
     (tn.getD 10 default).freeCpus = {18, 19} ∧
     (tn.getD 12 default).freeCpus = {22, 23}) ∧
    resizeCpusGo false gexSystem (Finset.range 32) ∅ (-1) =
      Except.ok (∅, {15}) ∧
    (let tm := gexSystem.ToAttributedSlice (Finset.range 32) ∅ (resizeFilter (-1))
     tm.length = 63 ∧
     (tm.getD 5 default).depth = (tm.getD 31 default).depth ∧
     (tm.getD 5 default).currentCpuCounts = (tm.getD 31 default).currentCpuCounts ∧
     (tm.getD 5 default).freeCpuCounts = (tm.getD 31 default).freeCpuCounts ∧
     (tm.getD 5 default).currentCpus = {0} ∧
     (tm.getD 31 default).currentCpus = {15}) ∧
    ({18, 19} : Finset ℕ) ≠ {22, 23} ∧ ({0} : Finset ℕ) ≠ {15} :=
  ⟨by decide, by decide, by decide, by decide, by decide, by decide⟩

theorem goAtoiRange_some {v i : ℤ} (h : goAtoiRange v = some i) :
    i = v ∧ -(2 ^ 63) ≤ i ∧ i ≤ 2 ^ 63 - 1 := by
  unfold goAtoiRange at h
  split at h
  · cases h
    constructor
    · rfl
    · assumption
  · cases h

theorem parseAtoi_range {s : String} {i : ℤ} (h : parseAtoi s = some i) :
    -(2 ^ 63) ≤ i ∧ i ≤ 2 ^ 63 - 1 := by
  unfold parseAtoi at h
  split at h
  · exact absurd h (by simp)
  · split at h
    · exact absurd h (by simp)
    · rcases Option.bind_eq_some.mp h with ⟨n, _, hr⟩
      exact (goAtoiRange_some hr).2
  · split at h
    · exact absurd h (by simp)
    · rcases Option.bind_eq_some.mp h with ⟨n, _, hr⟩
      exact (goAtoiRange_some hr).2
  · rcases Option.bind_eq_some.mp h with ⟨n, _, hr⟩
    exact (goAtoiRange_some hr).2

/-- C9 counterexample: UnmarshalJSON applies strconv.Atoi and stores any
in-range integer without a check against the defined levels, so the
input 99, which is not the ordinal of any defined level and not one of
the quoted names, is accepted instead of being rejected. -/
theorem unmarshalCPUTopologyLevel_counterexample :
    unmarshalCPUTopologyLevel "99" = Except.ok 99 ∧
    (99 : CPUTopologyLevel) ∉
      ([CPUTopologyLevelUndefined, CPUTopologyLevelSystem, CPUTopologyLevelPackage,
        CPUTopologyLevelDie, CPUTopologyLevelNuma, CPUTopologyLevelCore,
        CPUTopologyLevelThread] : List CPUTopologyLevel) := by
  constructor
  · decide
  · decide

/-- C9 (amended): unmarshalling accepts any decimal integer within the
64-bit int range of strconv.Atoi and stores it unchecked against the
defined levels (not only their ordinals); integers beyond that range
fail Atoi and fall to the name path, where they are rejected with the
error carrying the offending token; it accepts, case-insensitively
(per Unicode simple lowercasing, as witnessed by the Kelvin sign), the
seven quoted level names, yielding the corresponding value; every input
it rejects produces an error carrying the offending token; and for
every defined level, the quoted lowercase String() name round-trips to
that level. -/
theorem unmarshalCPUTopologyLevel_spec :
    (∀ (s : String) (i : ℤ), parseAtoi s = some i →
      unmarshalCPUTopologyLevel s = Except.ok i) ∧
    (∀ (s : String) (i : ℤ), parseAtoi s = some i →
      -(2 ^ 63) ≤ i ∧ i ≤ 2 ^ 63 - 1) ∧
    parseAtoi "9223372036854775807" = some 9223372036854775807 ∧
    unmarshalCPUTopologyLevel "10000000000000000000" =
      Except.error ("unknown CPU topology level \"10000000000000000000\"") ∧
    (∀ (lvl : CPUTopologyLevel) (nm : String),
      (lvl, nm) ∈ cpuTopologyLevelToString →
      unmarshalCPUTopologyLevel ("\"" ++ nm ++ "\"") = Except.ok lvl ∧
      cpuTopologyLevelString lvl = nm) ∧
    (∀ (mid : List Char) (lvl : CPUTopologyLevel) (nm : String),
      (lvl, nm) ∈ cpuTopologyLevelToString →
      mid.map goToLower = nm.data →
      unmarshalCPUTopologyLevel (String.mk ('"' :: mid ++ ['"'])) =
        Except.ok lvl) ∧
    (∀ s : String, (∃ lvl, unmarshalCPUTopologyLevel s = Except.ok lvl) ∨
      unmarshalCPUTopologyLevel s =
        Except.error ("unknown CPU topology level \"" ++ s ++ "\"")) := by
  refine ⟨?_, ?_, ?_, ?_, ?_, ?_, ?_⟩
  · intro s i h
    unfold unmarshalCPUTopologyLevel
    rw [h]
  · exact fun s i h => parseAtoi_range h
  · decide
  · decide
  · intro lvl nm hmem
    simp only [cpuTopologyLevelToString, List.mem_cons, List.not_mem_nil, or_false,
      Prod.mk.injEq] at hmem
    rcases hmem with ⟨rfl, rfl⟩ | ⟨rfl, rfl⟩ | ⟨rfl, rfl⟩ | ⟨rfl, rfl⟩ |
      ⟨rfl, rfl⟩ | ⟨rfl, rfl⟩ | ⟨rfl, rfl⟩ <;> exact ⟨by decide, by decide⟩
  · intro mid lvl nm hmem hmid
    have hq : goToLower '"' = '"' := by decide
    have hname : ('"' :: mid ++ ['"']).map goToLower = '"' :: nm.data ++ ['"'] := by
      simp [hq, hmid]
    have hpa : parseAtoi (String.mk ('"' :: mid ++ ['"'])) = none := by
      rfl
    have hnm : 0 < nm.data.length := by
      have : ∀ pr ∈ cpuTopologyLevelToString, 0 < pr.2.data.length := by decide
      exact this (lvl, nm) hmem
    have hfind : cpuTopologyLevelToString.find?
        (fun p => p.2.data == nm.data) = some (lvl, nm) := by
      have : ∀ pr ∈ cpuTopologyLevelToString, cpuTopologyLevelToString.find?
          (fun p => p.2.data == pr.2.data) = some pr := by decide
      exact this (lvl, nm) hmem
    unfold unmarshalCPUTopologyLevel
    rw [hpa]
    dsimp only
    rw [hname]
    rw [if_pos ?side]
    case side =>
      refine ⟨?_, rfl, ?_⟩
      · have h2 : ('"' :: nm.data ++ ['"']).length = nm.data.length + 2 := by
          simp
        rw [h2]
        omega
      · exact List.getLast?_concat ('"' :: nm.data)
    have hstrip : (('"' :: nm.data ++ ['"']).drop 1).dropLast = nm.data := by
      have h1 : ('"' :: nm.data ++ ['"']).drop 1 = nm.data ++ ['"'] := rfl
      rw [h1]
      simp
    rw [hstrip, hfind]
  · intro s
    unfold unmarshalCPUTopologyLevel
    cases hpa : parseAtoi s with
    | some i => exact Or.inl ⟨i, rfl⟩
    | none =>
      dsimp only
      by_cases hcond : (s.data.map goToLower).length > 2 ∧
          (s.data.map goToLower).head? = some '"' ∧
          (s.data.map goToLower).getLast? = some '"'
      · rw [if_pos hcond]
        cases hfind : cpuTopologyLevelToString.find?
            (fun p => p.2.data == ((s.data.map goToLower).drop 1).dropLast) with
        | some p => exact Or.inl ⟨p.1, rfl⟩
        | none => exact Or.inr rfl
      · rw [if_neg hcond]
        exact Or.inr rfl

theorem unmarshalCPUTopologyLevel_spec_witness :
    unmarshalCPUTopologyLevel "7" = Except.ok 7 ∧
    (-(2 ^ 63) ≤ (7 : ℤ) ∧ (7 : ℤ) ≤ 2 ^ 63 - 1) ∧
    unmarshalCPUTopologyLevel ("\"" ++ "system" ++ "\"") =
      Except.ok CPUTopologyLevelSystem ∧
    cpuTopologyLevelString CPUTopologyLevelSystem = "system" ∧
    unmarshalCPUTopologyLevel (String.mk ('"' :: "SyStem".data ++ ['"'])) =
      Except.ok CPUTopologyLevelSystem ∧
    unmarshalCPUTopologyLevel
        (String.mk ('"' :: ['p', 'a', 'c', Char.ofNat 0x212A, 'a', 'g', 'e'] ++ ['"'])) =
      Except.ok CPUTopologyLevelPackage := by
  refine ⟨?_, ?_, ?_, ?_, ?_, ?_⟩
  · exact unmarshalCPUTopologyLevel_spec.1 "7" 7 (by decide)
  · exact unmarshalCPUTopologyLevel_spec.2.1 "7" 7 (by decide)
  · exact (unmarshalCPUTopologyLevel_spec.2.2.2.2.1 CPUTopologyLevelSystem "system"
      (by decide)).1
  · exact (unmarshalCPUTopologyLevel_spec.2.2.2.2.1 CPUTopologyLevelSystem "system"
      (by decide)).2
  · exact unmarshalCPUTopologyLevel_spec.2.2.2.2.2.1 "SyStem".data
      CPUTopologyLevelSystem "system" (by decide) (by decide)
  · exact unmarshalCPUTopologyLevel_spec.2.2.2.2.2.1
      ['p', 'a', 'c', Char.ofNat 0x212A, 'a', 'g', 'e']
      CPUTopologyLevelPackage "package" (by decide) (by decide)
